import Mathlib

/-!
# Da Vinci Code board game — verification of the turn/phase engine

A shallow embedding of the rules engine of the `da-vinci-code-board-game`
repository (source files `src/App.tsx`, `src/constants.ts`, `src/types.ts`).
The React component's game-state handlers are modelled as pure functions from
`GameState` to `GameState` (or `Option GameState` where the JavaScript can
throw or loop forever: `none` models an uncaught exception or divergence).

Within one event handler the source reads the `gameState` closure value
captured at render time and issues a sequence of `setGameState` calls; React
batches them, applying functional updaters to the accumulated pending state
and letting a plain-object update replace the state wholesale.  Each embedded
operation reproduces exactly that net effect, taking the entry state `g0` and
returning the state after the whole batch.  Floating-point numbers
(`sortValue`) are modelled as `Rat`, JavaScript numbers used as values and
indices as `Int`/`Nat`.
-/

unseal Rat.add Rat.sub Rat.mul Rat.inv

namespace DaVinci

/-- Tile colour (`src/types.ts`, `TileColor`). -/
inductive TileColor where
  | black
  | white
deriving DecidableEq, Repr

/-- The string of a colour, as interpolated into log messages
(`TileColor.BLACK = 'BLACK'`, `TileColor.WHITE = 'WHITE'`). -/
def TileColor.str : TileColor → String
  | .black => "BLACK"
  | .white => "WHITE"

/-- A tile (`src/types.ts`, `Tile`).  `value` is `-1` for a joker
(`JOKER_VALUE`); `sortValue` is the repositionable sort key; `isPlaced`
records that a joker has already been repositioned once. -/
structure Tile where
  id : String
  color : TileColor
  value : Int
  sortValue : Rat
  isRevealed : Bool
  ownerId : Option String
  isJoker : Bool
  isPlaced : Bool
deriving DecidableEq, Repr

/-- A player (`src/types.ts`, `Player`). -/
structure Player where
  id : String
  name : String
  isBot : Bool
  hand : List Tile
  isEliminated : Bool
  avatar : String
deriving DecidableEq, Repr

/-- The turn phase (`src/types.ts`, `GamePhase`). -/
inductive GamePhase where
  | SETUP
  | DRAW
  | GUESS
  | RESOLVE
  | TURN_END
  | GAME_OVER
deriving DecidableEq, Repr

/-- The whole game state (`src/types.ts`, `GameState`). -/
structure GameState where
  players : List Player
  currentTurnPlayerId : String
  drawnTile : Option Tile
  pool : List Tile
  phase : GamePhase
  winnerId : Option String
  turnLog : List String
  moveNumber : Nat
deriving DecidableEq, Repr

/-- `TOTAL_NUMBERS` (`src/constants.ts`). -/
def TOTAL_NUMBERS : Int := 12

/-- `JOKER_VALUE` (`src/constants.ts`). -/
def JOKER_VALUE : Int := -1

/-- `Math.abs` on rationals, written executably so that concrete sorts
evaluate inside `decide`. -/
def ratAbs (x : Rat) : Rat := if x < 0 then -x else x

/-- The comparator of `sortHand` (`src/constants.ts` lines 62-77) turned into
a boolean "does not come strictly after" test: `tileLe a b` holds iff the
comparator returns a non-positive number on `(a, b)`.  Sort keys within
`0.001` of each other are treated as tied and broken by colour
(Black before White). -/
def tileLe (a b : Tile) : Bool :=
  if (1 : Rat)/1000 < ratAbs (a.sortValue - b.sortValue) then
    decide (a.sortValue < b.sortValue)
  else
    decide (a.color = TileColor.black) || decide (a.color = b.color)

/-- Insert a tile into an already-sorted list, keeping it before the first
element it does not come after.  Together with `sortHand` this is a stable
sort with respect to the comparator of `src/constants.ts`, matching the
stable `Array.prototype.sort` used by the source. -/
def orderedInsert (a : Tile) : List Tile → List Tile
  | [] => [a]
  | b :: l => if tileLe a b then a :: b :: l else b :: orderedInsert a l

/-- `sortHand` (`src/constants.ts` lines 62-77): a stable sort of the hand by
the epsilon/colour comparator. -/
def sortHand : List Tile → List Tile
  | [] => []
  | a :: l => orderedInsert a (sortHand l)

/-- `addLog` (`src/App.tsx` lines 376-382): prepend a message to the turn
log, keeping at most 50 entries. -/
def addLog (msg : String) (s : GameState) : GameState :=
  { s with turnLog := (msg :: s.turnLog).take 50 }

/-- JavaScript array indexing with a possibly negative index:
`hand[i]` is `undefined` (here `none`) for `i < 0` or `i ≥ length`. -/
def getInt? (l : List Tile) (i : Int) : Option Tile :=
  if i < 0 then none else l.get? i.toNat

/-- Mark the tile at index `i` revealed
(`newHand[targetTileIndex] = { ...newHand[targetTileIndex], isRevealed: true }`,
`src/App.tsx` line 286).  The index is always in range at the call sites;
out of range the assignment is modelled as a no-op. -/
def revealAt (l : List Tile) (i : Nat) : List Tile :=
  match l.get? i with
  | some t => l.set i { t with isRevealed := true }
  | none => l

/-- Mutate the first element satisfying `q` in place, as the source's
`players.find(...)` followed by a field assignment does. -/
def updateFirst (q : Player → Bool) (f : Player → Player) : List Player → List Player
  | [] => []
  | a :: l => if q a then f a :: l else a :: updateFirst q f l

/-- `drawTile` (`src/App.tsx` lines 158-186).  `r` resolves the
`Math.random() * 12` sort key given to a joker drawn by a bot.  No-op unless
the phase is `DRAW`; with an empty pool it skips straight to `GUESS` with no
drawn tile; otherwise it pops the tile from the end of the pool, assigns it
to the acting player and enters `GUESS`. -/
def drawTile (r : Rat) (g0 : GameState) : GameState :=
  if g0.phase = GamePhase.DRAW then
    match g0.pool.getLast? with
    | none =>
        addLog "Pool empty. Proceed to guess." { g0 with phase := GamePhase.GUESS }
    | some tile =>
        let t1 := { tile with ownerId := some g0.currentTurnPlayerId }
        let isBotCur : Bool :=
          match g0.players.find? (fun p => p.id = g0.currentTurnPlayerId) with
          | some p => p.isBot
          | none => false
        let t2 := if isBotCur && t1.isJoker then { t1 with sortValue := r } else t1
        addLog ("Player drawn a " ++ t2.color.str ++ " tile.")
          { g0 with pool := g0.pool.dropLast, drawnTile := some t2, phase := GamePhase.GUESS }
  else g0

/-- `continueTurn` (`src/App.tsx` lines 314-318): from `RESOLVE` back to
`GUESS`, otherwise a no-op. -/
def continueTurn (g0 : GameState) : GameState :=
  if g0.phase = GamePhase.RESOLVE then { g0 with phase := GamePhase.GUESS } else g0

/-- The index search loop shared by `endTurn` (`src/App.tsx` lines 339-342)
and `getNextPlayerId` (lines 463-468):
`while (players[idx].isEliminated) idx = (idx + 1) % players.length`.
The loop terminates only when some player is non-eliminated, so it is
modelled with explicit fuel; `none` models divergence (or the exception on an
out-of-range start). -/
def nextActiveIdx (players : List Player) : Nat → Nat → Option Nat
  | _, 0 => none
  | idx, fuel + 1 =>
    match players.get? idx with
    | none => none
    | some p =>
      if p.isEliminated then nextActiveIdx players ((idx + 1) % players.length) fuel
      else some idx

/-- `endTurn` (`src/App.tsx` lines 320-366).  Reads only the entry state
`g0`: its final `setGameState` receives a plain object built from `g0` and
the locals, so the `addLog` issued for a force-revealed drawn tile (line 331)
is overwritten and the final `turnLog` is `g0.turnLog`.  If a drawn tile
exists it is merged (force-revealed when `wasSuccess` is false) into the
acting player's hand and the hand re-sorted; the turn passes to the next
non-eliminated player; phase resets to `DRAW`; the move counter increments.
`none` models the exception when a drawn tile exists but the acting player is
not in the list, the `% 0` lookup on an empty player list, and the
non-terminating skip loop when every player is eliminated.  This first piece
is the drawn-tile reconciliation of lines 327-337: force-reveal on failure,
append to the acting player's hand, re-sort. -/
def mergeDrawn (wasSuccess : Bool) (g0 : GameState) : Option (List Player) :=
  match g0.drawnTile with
  | none => some g0.players
  | some dt =>
    match g0.players.findIdx? (fun p => p.id = g0.currentTurnPlayerId) with
    | none => none
    | some i =>
      match g0.players.get? i with
      | none => none
      | some cp =>
        some (g0.players.set i
          { cp with hand := sortHand (cp.hand ++
              [if wasSuccess then dt else { dt with isRevealed := true }]) })

/-- The initialisation `(currentPlayerIdx + 1) % players.length` of the skip
loop (`src/App.tsx` line 339), with `findIndex`'s `-1` for a missing id. -/
def endTurnStart (g0 : GameState) (len : Nat) : Nat :=
  (((match g0.players.findIdx? (fun p => p.id = g0.currentTurnPlayerId) with
     | some i => (i : Int)
     | none => -1) + 1) % (len : Int)).toNat

/-- The rest of `endTurn` (`src/App.tsx` lines 320-366): reconcile the drawn
tile, advance to the next non-eliminated player, reset the phase to `DRAW`,
clear the drawn slot, increment the move counter.  Pool, winner and log are
written back from the entry state. -/
def endTurn (wasSuccess : Bool) (g0 : GameState) : Option GameState :=
  match mergeDrawn wasSuccess g0 with
  | none => none
  | some newPlayers =>
    if newPlayers.length = 0 then none
    else
      match nextActiveIdx newPlayers (endTurnStart g0 newPlayers.length) newPlayers.length with
      | none => none
      | some j =>
        match newPlayers.get? j with
        | none => none
        | some np =>
          some { players := newPlayers, currentTurnPlayerId := np.id, drawnTile := none,
                 pool := g0.pool, phase := GamePhase.DRAW, winnerId := g0.winnerId,
                 turnLog := g0.turnLog, moveNumber := g0.moveNumber + 1 }

/-- `checkWinner` (`src/App.tsx` lines 368-374), applied to the result state
of the preceding update: when exactly one non-eliminated player remains it
sets the winner, enters `GAME_OVER` and logs the win. -/
def checkWinner (players : List Player) (s : GameState) : GameState :=
  let activePlayers := players.filter (fun p => !p.isEliminated)
  match activePlayers with
  | [a] => addLog (a.name ++ " WINS!") { s with winnerId := some a.id, phase := GamePhase.GAME_OVER }
  | _ => s

/-- The map of `src/App.tsx` lines 283-290 (and 426-433): reveal the tile at
`ti` in the hand of every player whose id is `tid`. -/
def revealPlayers (tid : String) (ti : Nat) (ps : List Player) : List Player :=
  ps.map (fun p => if p.id = tid then { p with hand := revealAt p.hand ti } else p)

/-- Lines 292-293 (and 434-435): look up the updated target and test whether
its whole hand is now revealed. -/
def allRevealedAfter (tid : String) (ps : List Player) : Bool :=
  match ps.find? (fun p => p.id = tid) with
  | some up => up.hand.all (fun t => t.isRevealed)
  | none => false

/-- Lines 295 (and 435): the in-place `updatedTargetPlayer.isEliminated = true`
on the first player with the target id. -/
def elimPlayers (tid : String) (ps : List Player) : List Player :=
  updateFirst (fun p => p.id = tid) (fun p => { p with isEliminated := true }) ps

/-- `submitGuess` (`src/App.tsx` lines 270-312), with the guess-modal
contents `(targetPlayerId, targetTileIndex)` and the chosen `value` as
arguments.  On a correct guess the target tile is revealed, the target
possibly eliminated (with a log entry queued before the state update), the
phase set to `RESOLVE`, and `checkWinner` run on the new player list.  On a
wrong guess the queued `"Wrong guess!"` log entry is overwritten by
`endTurn(false)`'s whole-state write, so the net effect is exactly
`endTurn false g0`.  `none` models the `TypeError` thrown by
`targetPlayer.hand[targetTileIndex].value` on an out-of-range index, and the
failure modes of `endTurn`. -/
def submitGuess (targetPlayerId : String) (targetTileIndex : Int) (value : Int)
    (g0 : GameState) : Option GameState :=
  match g0.players.find? (fun p => p.id = targetPlayerId) with
  | none => some g0
  | some tp =>
    match getInt? tp.hand targetTileIndex with
    | none => none
    | some tt =>
      if tt.value = value then
        let ti := targetTileIndex.toNat
        let newPlayers := revealPlayers targetPlayerId ti g0.players
        let allRev := allRevealedAfter targetPlayerId newPlayers
        let newPlayers2 := if allRev then elimPlayers targetPlayerId newPlayers else newPlayers
        let elimName :=
          match newPlayers.find? (fun p => p.id = targetPlayerId) with
          | some up => up.name
          | none => ""
        let s1 := if allRev then addLog (elimName ++ " is eliminated!") g0 else g0
        let s2 := { s1 with players := newPlayers2, phase := GamePhase.RESOLVE }
        let s3 :=
          addLog ("Correct! It was " ++ (if tt.isJoker then "a Joker" else toString tt.value) ++ ".") s2
        some (checkWinner newPlayers2 s3)
      else
        endTurn false g0

/-- The complete guess command: `handleTileClick` (`src/App.tsx` lines
188-200) validates the click and opens the modal, and `submitGuess` resolves
it.  Validation order follows the source: phase, target exists and is not
eliminated, target is not the acting player, then the tile itself — the
access `targetPlayer.hand[tileIndex].isRevealed` throws (modelled `none`) on
an out-of-range index. -/
def guess (targetPlayerId : String) (tileIndex : Int) (value : Int)
    (g0 : GameState) : Option GameState :=
  if g0.phase = GamePhase.GUESS then
    match g0.players.find? (fun p => p.id = targetPlayerId) with
    | none => some g0
    | some tp =>
      if tp.isEliminated then some g0
      else if tp.id = g0.currentTurnPlayerId then some g0
      else
        match getInt? tp.hand tileIndex with
        | none => none
        | some tt =>
          if tt.isRevealed then some g0
          else submitGuess targetPlayerId tileIndex value g0
  else some g0

/-- `getNextPlayerId` (`src/App.tsx` lines 463-468).  `findIndex` yields `-1`
when the id is absent, making the loop start at index 0; `none` models
divergence when every player is eliminated (and the `% 0` exception on an
empty list). -/
def getNextPlayerId (players : List Player) (currentId : String) : Option String :=
  if players.length = 0 then none
  else
    let idxI : Int :=
      match players.findIdx? (fun p => p.id = currentId) with
      | some i => (i : Int)
      | none => -1
    let start : Nat := ((idxI + 1) % (players.length : Int)).toNat
    (nextActiveIdx players start players.length).bind
      (fun j => (players.get? j).map (fun p => p.id))

/-- The dragged object resolved by `handleDrop` (`src/App.tsx` lines
214-222): the drawn tile when its id matches, else the tile with that id in
the acting player's hand. -/
def resolveDragged (g0 : GameState) (draggedId : String) : Option Tile :=
  match g0.players.find? (fun p => p.id = g0.currentTurnPlayerId) with
  | none => none
  | some cp =>
    if (g0.drawnTile.map (fun t => t.id == draggedId)).getD false then g0.drawnTile
    else cp.hand.find? (fun t => t.id = draggedId)

/-- `handleDrop` (`src/App.tsx` lines 207-267): the joker reposition
command.  Rejected (state unchanged) when the dragged object is not a joker
or has already been placed; otherwise computes the new sort key from the drop
target's neighbourhood, marks the dragged tile `isPlaced`, and re-sorts the
hand (or updates the drawn tile in place). -/
def handleDrop (draggedId targetTileId : String) (g0 : GameState) : GameState :=
  if draggedId = targetTileId then g0
  else
    match g0.players.find? (fun p => p.id = g0.currentTurnPlayerId) with
    | none => g0
    | some cp =>
      let hand := cp.hand
      let isDrawnTile := (g0.drawnTile.map (fun t => t.id == draggedId)).getD false
      let draggedObj := if isDrawnTile then g0.drawnTile
        else hand.find? (fun t => t.id = draggedId)
      match draggedObj with
      | none => g0
      | some dobj =>
        if ¬dobj.isJoker ∨ dobj.isPlaced then g0
        else
          let newSortValue : Rat :=
            match hand.findIdx? (fun t => t.id = targetTileId) with
            | some targetIndex =>
              match hand.get? targetIndex with
              | none => 0
              | some targetTile =>
                if targetIndex = 0 then targetTile.sortValue - 1
                else
                  match hand.get? (targetIndex - 1) with
                  | none => 0
                  | some prevTile =>
                    if prevTile.id = draggedId ∧ 1 < targetIndex then
                      match hand.get? (targetIndex - 2) with
                      | none => 0
                      | some prevPrev => (prevPrev.sortValue + targetTile.sortValue) / 2
                    else if prevTile.id = draggedId then targetTile.sortValue - 1/2
                    else (prevTile.sortValue + targetTile.sortValue) / 2
            | none =>
              match hand.getLast? with
              | some lastTile => lastTile.sortValue + 1
              | none => 0
          if isDrawnTile then
            { g0 with drawnTile :=
                g0.drawnTile.map (fun t => { t with sortValue := newSortValue, isPlaced := true }) }
          else
            let newHand := hand.map (fun t =>
              if t.id = draggedId then { t with sortValue := newSortValue, isPlaced := true } else t)
            { g0 with players :=
                g0.players.map (fun p => if p.id = cp.id then { p with hand := sortHand newHand } else p) }

/-- `executeBotMove` (`src/App.tsx` lines 397-461), with the agent's random
selections resolved into arguments: `r` the joker sort key used by a draw,
`targetId` the chosen opponent, `ti` the original hand index of the chosen
hidden tile, `guessVal` the guessed value.  The guards mirror the sampling
domain (an opponent, a hidden tile); arguments outside it leave the state
unchanged, as the agent never produces them.  On a correct guess the source
does not go through `submitGuess`: it reveals the tile, eliminates the target
if fully revealed, advances the turn to the next non-eliminated player,
enters `DRAW`, merges a pending drawn tile unrevealed into the bot's hand (a
mutation of the array already handed to `setGameState`), and runs
`checkWinner` — without touching the move counter.  On a wrong guess the
queued log entry is again overwritten by `endTurn(false)`. -/
def executeBotMove (r : Rat) (targetId : String) (ti : Nat) (guessVal : Int)
    (g0 : GameState) : Option GameState :=
  if g0.phase = GamePhase.DRAW then some (drawTile r g0)
  else if g0.phase = GamePhase.GUESS then
    match g0.players.find? (fun p => p.id = targetId) with
    | none => some g0
    | some target =>
      if target.id = g0.currentTurnPlayerId ∨ target.isEliminated then some g0
      else
        match target.hand.get? ti with
        | none => some g0
        | some tt =>
          if tt.isRevealed then some g0
          else if tt.value = guessVal then
            let newPlayers := revealPlayers targetId ti g0.players
            let allRev := allRevealedAfter targetId newPlayers
            let newPlayers2 := if allRev then elimPlayers targetId newPlayers else newPlayers
            let newPlayers3? : Option (List Player) :=
              match g0.drawnTile with
              | none => some newPlayers2
              | some dt =>
                match newPlayers2.findIdx? (fun p => p.id = g0.currentTurnPlayerId) with
                | none => none
                | some bi =>
                  match newPlayers2.get? bi with
                  | none => none
                  | some bp => some (newPlayers2.set bi { bp with hand := sortHand (bp.hand ++ [dt]) })
            match newPlayers3? with
            | none => none
            | some newPlayers3 =>
              match getNextPlayerId newPlayers3 g0.currentTurnPlayerId with
              | none => none
              | some nid =>
                some (checkWinner newPlayers3
                  { (addLog "Bot guessed correctly!" g0) with
                      players := newPlayers3, phase := GamePhase.DRAW,
                      currentTurnPlayerId := nid, drawnTile := none })
          else endTurn false g0
  else if g0.phase = GamePhase.RESOLVE then endTurn true g0
  else some g0

/-- `createInitialTiles` (`src/constants.ts` lines 8-59): one black and one
white tile for each value `0..11` with sort key equal to the value, plus —
when requested — one joker per colour with sort key `100`. -/
def createInitialTiles (includeJokers : Bool) : List Tile :=
  (List.range 12).flatMap (fun i =>
    [⟨"b-" ++ toString i, TileColor.black, (i : Int), (i : Rat), false, none, false, false⟩,
     ⟨"w-" ++ toString i, TileColor.white, (i : Int), (i : Rat), false, none, false, false⟩])
  ++ (if includeJokers then
        [⟨"b-joker", TileColor.black, JOKER_VALUE, 100, false, none, true, false⟩,
         ⟨"w-joker", TileColor.white, JOKER_VALUE, 100, false, none, true, false⟩]
      else [])

/-- All sort keys of the collection are pairwise either exactly equal or
separated by more than the `0.001` tolerance.  Under this separation
hypothesis the comparator of `sortHand` is a genuine total preorder. -/
def GoodKeys (l : List Tile) : Prop :=
  ∀ a ∈ l, ∀ b ∈ l,
    a.sortValue = b.sortValue ∨ (1 : Rat)/1000 < ratAbs (a.sortValue - b.sortValue)

/-- Whether position `j` of the player list holds a non-eliminated player. -/
def isActiveAt (players : List Player) (j : Nat) : Bool :=
  match players.get? j with
  | some p => !p.isEliminated
  | none => false

/-- Specification of the next-player search, following the spec text: scan
the `fuel` cyclic positions starting at `start` and take the first one
holding a non-eliminated player. -/
def cyclicFindSpec (players : List Player) (start fuel : Nat) : Option Nat :=
  ((List.range fuel).map (fun k => (start + k) % players.length)).find? (isActiveAt players)

/-- The first non-eliminated seat at or cyclically after `start`. -/
def cyclicFirstActive (players : List Player) (start : Nat) : Option Nat :=
  cyclicFindSpec players start players.length

/-- The number of non-eliminated players. -/
def countActive (ps : List Player) : Nat :=
  (ps.filter (fun p => !p.isEliminated)).length

/-- Every tile currently in the game: draw pool, drawn-tile slot, hands. -/
def tilesOf (s : GameState) : List Tile :=
  s.pool ++ s.drawnTile.toList ++ s.players.flatMap Player.hand

/-- Modelled abstraction of `startGame` (`src/App.tsx` lines 43-94): the
structural properties every freshly dealt game state has.  Two to four
players with distinct ids, all alive, dealt 4 unrevealed tiles each (3 in a
four-player game), numbered tiles carrying their value as sort key, no tile
placed yet, the first player active, phase `DRAW`, nothing drawn, no winner.
The exact tile inventory of hands versus pool is not constrained — no claim
below depends on it. -/
def Init (s : GameState) : Prop :=
  2 ≤ s.players.length ∧ s.players.length ≤ 4 ∧
  (s.players.map Player.id).Nodup ∧
  (∀ p ∈ s.players, p.isEliminated = false) ∧
  (∀ p ∈ s.players, p.hand.length = if s.players.length = 4 then 3 else 4) ∧
  (∀ p ∈ s.players, ∀ t ∈ p.hand,
    t.isRevealed = false ∧ t.isPlaced = false ∧
    (t.isJoker = false → t.sortValue = (t.value : Rat))) ∧
  (∀ t ∈ s.pool, t.isRevealed = false ∧ t.isPlaced = false ∧
    (t.isJoker = false → t.sortValue = (t.value : Rat))) ∧
  ((tilesOf s).map Tile.id).Nodup ∧
  s.players.head?.map Player.id = some s.currentTurnPlayerId ∧
  s.drawnTile = none ∧ s.phase = GamePhase.DRAW ∧ s.winnerId = none ∧ s.moveNumber = 1

/-- One engine command, with the host's and agent's free choices (random
draws, click coordinates, guessed values) universally quantified.  Commands
whose JavaScript counterpart throws or diverges produce no step. -/
inductive Step : GameState → GameState → Prop where
  | draw (r : Rat) (s : GameState) : Step s (drawTile r s)
  | guessCmd (pid : String) (i value : Int) (s s' : GameState) :
      guess pid i value s = some s' → Step s s'
  | cont (s : GameState) : Step s (continueTurn s)
  | endT (b : Bool) (s s' : GameState) : endTurn b s = some s' → Step s s'
  | drop (d t : String) (s : GameState) : Step s (handleDrop d t s)
  | bot (r : Rat) (pid : String) (ti : Nat) (v : Int) (s s' : GameState) :
      executeBotMove r pid ti v s = some s' → Step s s'

/-- A game state reachable from some freshly dealt state by engine commands. -/
def Reachable (s : GameState) : Prop :=
  ∃ s0, Init s0 ∧ Relation.ReflTransGen Step s0 s

/-- Player ids are distinct. -/
def NodupIds (s : GameState) : Prop := (s.players.map Player.id).Nodup

/-- A player whose whole hand is revealed carries the eliminated flag. -/
def ElimInv (s : GameState) : Prop :=
  ∀ p ∈ s.players, (∀ t ∈ p.hand, t.isRevealed = true) → p.isEliminated = true

/-- The turn holder is a non-eliminated player of the roster. -/
def CurInv (s : GameState) : Prop :=
  ∃ p ∈ s.players, p.id = s.currentTurnPlayerId ∧ p.isEliminated = false

/-- The winner is set exactly when one non-eliminated player remains. -/
def WinnerInv (s : GameState) : Prop :=
  s.winnerId.isSome = true ↔ countActive s.players = 1

/-- In the `DRAW` phase the drawn-tile slot is empty. -/
def DrawnInv (s : GameState) : Prop :=
  s.phase = GamePhase.DRAW → s.drawnTile = none

/-- Tiles still in the pool have never been repositioned. -/
def PoolInv (s : GameState) : Prop := ∀ t ∈ s.pool, t.isPlaced = false

/-- Tile ids are globally distinct (the factory creates each id once). -/
def TileIdsInv (s : GameState) : Prop := ((tilesOf s).map Tile.id).Nodup

/-- A non-joker tile's sort key is the value it was created with. -/
def SortKeyInv (s : GameState) : Prop :=
  ∀ t ∈ tilesOf s, t.isJoker = false → t.sortValue = (t.value : Rat)

/-- The conjunction of all engine invariants established below. -/
def Inv (s : GameState) : Prop :=
  NodupIds s ∧ ElimInv s ∧ CurInv s ∧ WinnerInv s ∧ DrawnInv s ∧ PoolInv s ∧
    SortKeyInv s ∧ TileIdsInv s

/-- A tile once repositioned keeps its identity, sort key and placed flag
through the operation taking `s` to `s'`. -/
def PlacedPersist (s s' : GameState) : Prop :=
  ∀ t ∈ tilesOf s, t.isPlaced = true →
    ∃ t' ∈ tilesOf s', t'.id = t.id ∧ t'.sortValue = t.sortValue ∧ t'.isPlaced = true

/-- What every engine operation guarantees from an invariant-satisfying
entry state: the invariants hold again, a drop of the active-player count to
one happens only together with the `GameOver` transition, and placed tiles
persist untouched. -/
def StepSound (s s' : GameState) : Prop :=
  Inv s' ∧
  (countActive s'.players = 1 → countActive s.players ≠ 1 →
    s'.phase = GamePhase.GAME_OVER) ∧
  PlacedPersist s s'

/-- A black numbered tile as dealt (sort key equals value). -/
def tileB (id : String) (v : Int) : Tile := ⟨id, TileColor.black, v, (v : Rat), false, none, false, false⟩

/-- A white numbered tile as dealt (sort key equals value). -/
def tileW (id : String) (v : Int) : Tile := ⟨id, TileColor.white, v, (v : Rat), false, none, false, false⟩

/-- Hand dealt to the first (human) sample player. -/
def wHand0 : List Tile := [tileB "b-4" 4, tileB "b-5" 5, tileW "w-6" 6, tileB "b-7" 7]

/-- Hand dealt to the second (bot) sample player. -/
def wHand1 : List Tile := [tileB "b-0" 0, tileW "w-1" 1, tileB "b-2" 2, tileW "w-3" 3]

/-- The two sample players. -/
def wAlice : Player := ⟨"p-0", "Alice", false, wHand0, false, "A"⟩

/-- The automated sample opponent. -/
def wBot : Player := ⟨"p-1", "Robo", true, wHand1, false, "R"⟩

/-- A freshly dealt two-player game with an exhausted pool, used to drive
short concrete executions. -/
def wStart : GameState :=
  { players := [wAlice, wBot], currentTurnPlayerId := "p-0", drawnTile := none,
    pool := [], phase := GamePhase.DRAW, winnerId := none,
    turnLog := ["Game Started!"], moveNumber := 1 }

/-- One full turn of correct guesses by the human player: draw on the empty
pool, then guess all four of the bot's tiles, continuing after each hit.
The final state has the bot eliminated and the game over. -/
def wc1 : GameState := drawTile 0 wStart

/-- First correct guess (`b-0`, value 0). -/
def wc2 : GameState := (guess "p-1" 0 0 wc1).getD wStart

/-- Continue guessing. -/
def wc3 : GameState := continueTurn wc2

/-- Second correct guess. -/
def wc4 : GameState := (guess "p-1" 1 1 wc3).getD wStart

/-- Continue guessing. -/
def wc5 : GameState := continueTurn wc4

/-- Third correct guess. -/
def wc6 : GameState := (guess "p-1" 2 2 wc5).getD wStart

/-- Continue guessing. -/
def wc7 : GameState := continueTurn wc6

/-- Fourth correct guess: eliminates the bot and ends the game. -/
def wc8 : GameState := (guess "p-1" 3 3 wc7).getD wStart

/-- A freshly dealt two-player game over the full 26-tile deck (jokers
included): the 18 undealt tiles sit in the pool in one of the orders the
Fisher-Yates shuffle can produce, with the black joker second from the
draw end. -/
def jStart : GameState :=
  { players := [wAlice, wBot], currentTurnPlayerId := "p-0", drawnTile := none,
    pool := [tileW "w-0" 0, tileB "b-1" 1, tileW "w-2" 2, tileB "b-3" 3, tileW "w-4" 4,
             tileB "b-6" 6, tileW "w-7" 7, tileB "b-8" 8, tileW "w-8" 8, tileB "b-9" 9,
             tileW "w-9" 9, tileB "b-10" 10, tileW "w-10" 10, tileB "b-11" 11,
             tileW "w-11" 11,
             ⟨"w-joker", TileColor.white, JOKER_VALUE, 100, false, none, true, false⟩,
             ⟨"b-joker", TileColor.black, JOKER_VALUE, 100, false, none, true, false⟩,
             tileW "w-5" 5],
    phase := GamePhase.DRAW, winnerId := none,
    turnLog := ["Game Started!"], moveNumber := 1 }

/-- The human draws `w-5` from the pool. -/
def jc1 : GameState := drawTile 0 jStart

/-- The human guesses wrong (99 against value 0): the drawn tile is
force-revealed into their hand and the turn passes to the bot. -/
def jc2 : GameState := (guess "p-1" 0 99 jc1).getD jStart

/-- A Guess-phase state in which the bot holds the turn. -/
def botTurn : GameState :=
  { wStart with currentTurnPlayerId := "p-1", phase := GamePhase.GUESS }

/-- A freshly dealt two-player game in which the human was dealt the white
joker (sort key `100`, not yet placed). -/
def pStart : GameState :=
  { players :=
      [⟨"p-0", "Alice", false,
        [tileB "b-4" 4, tileB "b-5" 5, tileW "w-6" 6,
         ⟨"w-joker", TileColor.white, JOKER_VALUE, 100, false, none, true, false⟩],
        false, "A"⟩,
       wBot],
    currentTurnPlayerId := "p-0", drawnTile := none,
    pool := [], phase := GamePhase.DRAW, winnerId := none,
    turnLog := ["Game Started!"], moveNumber := 1 }

/-- The human repositions the white joker before tile `b-4`: the accepted
drop gives it sort key `3` and sets its placed flag. -/
def pDrop : GameState := handleDrop "w-joker" "b-4" pStart

/-! # Theorems -/

/-! ## Hand-ordering policy: sortedness of `sortHand` -/

theorem mem_orderedInsert {b : Tile} (a : Tile) (l : List Tile) :
    b ∈ orderedInsert a l ↔ b = a ∨ b ∈ l := by
  induction l with
  | nil => simp [orderedInsert]
  | cons c t ih =>
    simp only [orderedInsert]
    split
    · simp [List.mem_cons]
    · simp only [List.mem_cons, ih]
      tauto

theorem mem_sortHand {b : Tile} (l : List Tile) : b ∈ sortHand l ↔ b ∈ l := by
  induction l with
  | nil => simp [sortHand]
  | cons a t ih => simp [sortHand, mem_orderedInsert, ih]

theorem ratAbs_eq_abs (x : Rat) : ratAbs x = |x| := by
  unfold ratAbs
  split
  · exact (abs_of_neg (by assumption)).symm
  · exact (abs_of_nonneg (not_lt.1 (by assumption))).symm

theorem tileLe_of_eq_keys {a b : Tile} (h : a.sortValue = b.sortValue) :
    tileLe a b = (decide (a.color = TileColor.black) || decide (a.color = b.color)) := by
  unfold tileLe
  rw [h, sub_self, if_neg]
  rw [ratAbs_eq_abs, abs_zero]
  norm_num

theorem tileLe_of_far {a b : Tile}
    (h : (1 : Rat)/1000 < ratAbs (a.sortValue - b.sortValue)) :
    tileLe a b = decide (a.sortValue < b.sortValue) := by
  unfold tileLe
  rw [if_pos h]

theorem tileLe_total_of_good {a b : Tile}
    (h : a.sortValue = b.sortValue ∨ (1 : Rat)/1000 < ratAbs (a.sortValue - b.sortValue)) :
    tileLe a b = true ∨ tileLe b a = true := by
  rcases h with he | hf
  · rw [tileLe_of_eq_keys he, tileLe_of_eq_keys he.symm]
    cases a.color <;> cases b.color <;> simp
  · have hf' : (1 : Rat)/1000 < ratAbs (b.sortValue - a.sortValue) := by
      rw [ratAbs_eq_abs, abs_sub_comm, ← ratAbs_eq_abs]
      exact hf
    rw [tileLe_of_far hf, tileLe_of_far hf']
    have hne : a.sortValue ≠ b.sortValue := by
      intro he
      rw [he, sub_self, ratAbs_eq_abs, abs_zero] at hf
      linarith
    rcases lt_or_gt_of_ne hne with h1 | h1
    · left; simpa using h1
    · right; simpa using h1

theorem tileLe_trans_of_good {a b c : Tile}
    (hab : a.sortValue = b.sortValue ∨ (1 : Rat)/1000 < ratAbs (a.sortValue - b.sortValue))
    (hbc : b.sortValue = c.sortValue ∨ (1 : Rat)/1000 < ratAbs (b.sortValue - c.sortValue))
    (hac : a.sortValue = c.sortValue ∨ (1 : Rat)/1000 < ratAbs (a.sortValue - c.sortValue))
    (h1 : tileLe a b = true) (h2 : tileLe b c = true) : tileLe a c = true := by
  rcases hab with heab | hfab
  · rcases hbc with hebc | hfbc
    · -- all three keys equal: colour transitivity
      have heac : a.sortValue = c.sortValue := heab.trans hebc
      rw [tileLe_of_eq_keys heab] at h1
      rw [tileLe_of_eq_keys hebc] at h2
      rw [tileLe_of_eq_keys heac]
      revert h1 h2
      cases a.color <;> cases b.color <;> cases c.color <;> simp
    · -- a = b, b far from c: b < c hence a < c and a far from c
      rw [tileLe_of_far hfbc] at h2
      have hlt : b.sortValue < c.sortValue := by simpa using h2
      have hfac : (1 : Rat)/1000 < ratAbs (a.sortValue - c.sortValue) := by rwa [heab]
      rw [tileLe_of_far hfac]
      simp only [decide_eq_true_eq]
      rw [heab]; exact hlt
  · rw [tileLe_of_far hfab] at h1
    have hltab : a.sortValue < b.sortValue := by simpa using h1
    rcases hbc with hebc | hfbc
    · -- a far from b, b = c
      have hfac : (1 : Rat)/1000 < ratAbs (a.sortValue - c.sortValue) := by rwa [hebc] at hfab
      rw [tileLe_of_far hfac]
      simp only [decide_eq_true_eq]
      rw [← hebc]; exact hltab
    · -- a < b < c; the (a, c) pair cannot have equal keys
      rw [tileLe_of_far hfbc] at h2
      have hltbc : b.sortValue < c.sortValue := by simpa using h2
      have hltac : a.sortValue < c.sortValue := hltab.trans hltbc
      rcases hac with heac | hfac
      · exact absurd heac (ne_of_lt hltac)
      · rw [tileLe_of_far hfac]
        simpa using hltac

theorem pairwise_orderedInsert (a : Tile) (l : List Tile)
    (hl : l.Pairwise (fun x y => tileLe x y = true))
    (htot : ∀ b ∈ l, tileLe a b = true ∨ tileLe b a = true)
    (htr : ∀ b ∈ l, ∀ c ∈ l, tileLe a b = true → tileLe b c = true → tileLe a c = true) :
    (orderedInsert a l).Pairwise (fun x y => tileLe x y = true) := by
  induction l with
  | nil => simp [orderedInsert]
  | cons b t ih =>
    rw [List.pairwise_cons] at hl
    simp only [orderedInsert]
    split
    · rename_i hab
      refine List.pairwise_cons.2 ⟨?_, List.pairwise_cons.2 ⟨hl.1, hl.2⟩⟩
      intro x hx
      rcases List.mem_cons.1 hx with rfl | hxt
      · exact hab
      · exact htr b (by simp) x (by simp [hxt]) hab (hl.1 x hxt)
    · rename_i hab
      have hba : tileLe b a = true := by
        rcases htot b (by simp) with h | h
        · exact absurd h hab
        · exact h
      refine List.pairwise_cons.2 ⟨?_, ?_⟩
      · intro x hx
        rcases (mem_orderedInsert a t).1 hx with rfl | hxt
        · exact hba
        · exact hl.1 x hxt
      · exact ih hl.2 (fun c hc => htot c (by simp [hc]))
          (fun c hc d hd => htr c (by simp [hc]) d (by simp [hd]))

theorem pairwise_sortHand (l : List Tile) (h : GoodKeys l) :
    (sortHand l).Pairwise (fun x y => tileLe x y = true) := by
  induction l with
  | nil => simp [sortHand]
  | cons a t ih =>
    simp only [sortHand]
    have ht : GoodKeys t := fun x hx y hy => h x (by simp [hx]) y (by simp [hy])
    refine pairwise_orderedInsert a (sortHand t) (ih ht) ?_ ?_
    · intro b hb
      have hbt : b ∈ t := (mem_sortHand t).1 hb
      exact tileLe_total_of_good (h a (by simp) b (by simp [hbt]))
    · intro b hb c hc
      have hbt : b ∈ t := (mem_sortHand t).1 hb
      have hct : c ∈ t := (mem_sortHand t).1 hc
      exact tileLe_trans_of_good (h a (by simp) b (by simp [hbt]))
        (h b (by simp [hbt]) c (by simp [hct])) (h a (by simp) c (by simp [hct]))

/-! ## The cyclic next-player search -/

theorem nextActiveIdx_eq_spec (players : List Player) (fuel : Nat) :
    ∀ start, start < players.length →
      nextActiveIdx players start fuel = cyclicFindSpec players start fuel := by
  induction fuel with
  | zero => intro start _; simp [nextActiveIdx, cyclicFindSpec]
  | succ n ih =>
    intro start hs
    have hlen : 0 < players.length := Nat.lt_of_le_of_lt (Nat.zero_le _) hs
    have hget : ∃ p, players.get? start = some p := by
      rw [List.get?_eq_getElem?]
      exact ⟨players[start], List.getElem?_eq_some.2 ⟨hs, rfl⟩⟩
    obtain ⟨p, hp⟩ := hget
    have htail : (List.range n).map (fun k => (start + Nat.succ k) % players.length)
        = (List.range n).map (fun k => ((start + 1) % players.length + k) % players.length) := by
      refine List.map_congr_left ?_
      intro k _
      rw [Nat.mod_add_mod]
      congr 1
      omega
    have hspec : cyclicFindSpec players start (n + 1) =
        if isActiveAt players start then some start
        else cyclicFindSpec players ((start + 1) % players.length) n := by
      unfold cyclicFindSpec
      rw [List.range_succ_eq_map]
      simp only [List.map_cons, Nat.add_zero, Nat.mod_eq_of_lt hs, List.map_map,
        Function.comp_def]
      rw [htail]
      by_cases hA : isActiveAt players start
      · rw [List.find?_cons_of_pos _ hA, if_pos hA]
      · rw [List.find?_cons_of_neg _ hA, if_neg hA]
    rw [hspec]
    have hact : isActiveAt players start = !p.isEliminated := by
      unfold isActiveAt
      rw [hp]
    have hnext : nextActiveIdx players start (n + 1) =
        if p.isEliminated then nextActiveIdx players ((start + 1) % players.length) n
        else some start := by
      simp only [nextActiveIdx, hp]
    rw [hnext]
    by_cases he : p.isEliminated
    · rw [if_pos he]
      have hA : isActiveAt players start = false := by rw [hact, he]; rfl
      rw [if_neg (by simp [hA])]
      exact ih _ (Nat.mod_lt _ hlen)
    · rw [if_neg he]
      have hA : isActiveAt players start = true := by
        rw [hact]
        simp [he]
      rw [if_pos hA]

/-- A membership witness makes the cyclic search succeed: position `j` of
the candidate scan hits any seat holding a non-eliminated player. -/
theorem cyclicFirstActive_isSome (players : List Player) (start : Nat)
    (hs : start < players.length)
    (h : ∃ p ∈ players, p.isEliminated = false) :
    (cyclicFirstActive players start).isSome = true := by
  obtain ⟨p, hmem, hpe⟩ := h
  obtain ⟨j, hj⟩ := List.mem_iff_get?.1 hmem
  have hjlt : j < players.length := by
    rw [List.get?_eq_getElem?] at hj
    obtain ⟨hlt, _⟩ := List.getElem?_eq_some.1 hj
    exact hlt
  have hlen : 0 < players.length := Nat.lt_of_le_of_lt (Nat.zero_le _) hs
  unfold cyclicFirstActive cyclicFindSpec
  rw [List.find?_isSome]
  refine ⟨j, ?_, ?_⟩
  · rw [List.mem_map]
    refine ⟨(j + players.length - start) % players.length, ?_, ?_⟩
    · rw [List.mem_range]
      exact Nat.mod_lt _ hlen
    · show (start + (j + players.length - start) % players.length) % players.length = j
      have e1 : start + (j + players.length - start) = j + players.length := by omega
      calc (start + (j + players.length - start) % players.length) % players.length
          = (start + (j + players.length - start)) % players.length :=
            Nat.add_mod_mod start _ players.length
        _ = (j + players.length) % players.length := by rw [e1]
        _ = j % players.length := Nat.add_mod_right j players.length
        _ = j := Nat.mod_eq_of_lt hjlt
  · show isActiveAt players j = true
    simp only [isActiveAt, hj, hpe]
    rfl

theorem nextActiveIdx_none_of_allElim (players : List Player)
    (h : ∀ p ∈ players, p.isEliminated = true) :
    ∀ fuel start, nextActiveIdx players start fuel = none := by
  intro fuel
  induction fuel with
  | zero => intro start; rfl
  | succ n ih =>
    intro start
    cases hp : players.get? start with
    | none => simp only [nextActiveIdx, hp]
    | some p =>
      have hm : p ∈ players := List.get?_mem hp
      simp only [nextActiveIdx, hp, h p hm, if_true]
      exact ih _

theorem nextActiveIdx_active {players : List Player} {fuel : Nat} :
    ∀ {start j : Nat}, nextActiveIdx players start fuel = some j →
      ∃ p, players.get? j = some p ∧ p.isEliminated = false := by
  induction fuel with
  | zero => intro start j h; simp [nextActiveIdx] at h
  | succ n ih =>
    intro start j h
    cases hp : players.get? start with
    | none =>
      simp only [nextActiveIdx, hp] at h
      exact absurd h (by simp)
    | some p =>
      simp only [nextActiveIdx, hp] at h
      by_cases he : p.isEliminated
      · rw [if_pos he] at h
        exact ih h
      · rw [if_neg he] at h
        cases h
        exact ⟨p, hp, by simpa using he⟩

theorem getInt?_ofNat (l : List Tile) (i : Nat) : getInt? l (i : Int) = l.get? i := by
  unfold getInt?
  rw [if_neg (by omega), Int.toNat_natCast]

/-- C10: with at least one non-eliminated player present, the cyclic
next-player search used at end of turn terminates and returns the first
non-eliminated seat strictly after the current index in cyclic order; with
every player eliminated it returns nothing for any amount of fuel — the
source loop never exits. -/
theorem claim_C10 (players : List Player) (currentId : String) (i : Nat)
    (hfind : players.findIdx? (fun p => p.id = currentId) = some i) :
    ((∃ p ∈ players, p.isEliminated = false) →
      (cyclicFirstActive players ((i + 1) % players.length)).isSome = true ∧
      getNextPlayerId players currentId
        = (cyclicFirstActive players ((i + 1) % players.length)).bind
            (fun j => (players.get? j).map (fun p => p.id))) ∧
    ((∀ p ∈ players, p.isEliminated = true) →
      ∀ fuel, nextActiveIdx players ((i + 1) % players.length) fuel = none) := by
  have hilt : i < players.length := (List.findIdx?_eq_some_iff_findIdx_eq.1 hfind).1
  have hlen : 0 < players.length := Nat.lt_of_le_of_lt (Nat.zero_le _) hilt
  have hstart : (i + 1) % players.length < players.length := Nat.mod_lt _ hlen
  have hconv : (((i : Int) + 1) % ((players.length : Nat) : Int)).toNat
      = (i + 1) % players.length := by
    have h1 : ((i : Int) + 1) = ((i + 1 : Nat) : Int) := by push_cast; ring
    rw [h1, ← Int.natCast_mod, Int.toNat_natCast]
  constructor
  · intro hex
    refine ⟨cyclicFirstActive_isSome players _ hstart hex, ?_⟩
    unfold getNextPlayerId
    rw [if_neg (by omega)]
    simp only [hfind, hconv]
    rw [nextActiveIdx_eq_spec players players.length _ hstart]
    rfl
  · intro hall fuel
    exact nextActiveIdx_none_of_allElim players hall fuel _

/-! ## Small facts about the state-preserving pieces -/

theorem addLog_players (m : String) (s : GameState) : (addLog m s).players = s.players := rfl

theorem addLog_fields (m : String) (s : GameState) :
    (addLog m s).players = s.players ∧ (addLog m s).currentTurnPlayerId = s.currentTurnPlayerId ∧
    (addLog m s).drawnTile = s.drawnTile ∧ (addLog m s).pool = s.pool ∧
    (addLog m s).phase = s.phase ∧ (addLog m s).winnerId = s.winnerId ∧
    (addLog m s).moveNumber = s.moveNumber :=
  ⟨rfl, rfl, rfl, rfl, rfl, rfl, rfl⟩

/-- Case analysis of `checkWinner`: exactly one active player and the
winner/phase write, or a different count and no change at all. -/
theorem checkWinner_eq (ps : List Player) (s : GameState) :
    (∃ a, countActive ps = 1 ∧ ps.filter (fun p => !p.isEliminated) = [a] ∧
      checkWinner ps s
        = addLog (a.name ++ " WINS!") { s with winnerId := some a.id, phase := GamePhase.GAME_OVER }) ∨
    (countActive ps ≠ 1 ∧ checkWinner ps s = s) := by
  cases hf : ps.filter (fun p => !p.isEliminated) with
  | nil =>
    right
    refine ⟨by simp [countActive, hf], ?_⟩
    simp only [checkWinner, hf]
  | cons a t =>
    cases t with
    | nil =>
      left
      refine ⟨a, by simp [countActive, hf], rfl, ?_⟩
      simp only [checkWinner, hf]
    | cons b u =>
      right
      refine ⟨by simp [countActive, hf], ?_⟩
      simp only [checkWinner, hf]

theorem updateFirst_get? (q : Player → Bool) (f : Player → Player) :
    ∀ (l : List Player) (k : Nat),
      (updateFirst q f l).get? k = l.get? k ∨
      ∃ a, l.get? k = some a ∧ q a = true ∧ (updateFirst q f l).get? k = some (f a) := by
  intro l
  induction l with
  | nil => intro k; left; rfl
  | cons a t ih =>
    intro k
    by_cases hq : q a
    · cases k with
      | zero => right; exact ⟨a, rfl, hq, by simp [updateFirst, hq]⟩
      | succ m => left; simp [updateFirst, hq]
    · cases k with
      | zero => left; simp [updateFirst, hq]
      | succ m =>
        rcases ih m with h | ⟨b, hb, hqb, hres⟩
        · left; simpa [updateFirst, hq] using h
        · right; exact ⟨b, by simpa using hb, hqb, by simpa [updateFirst, hq] using hres⟩

theorem updateFirst_length (q : Player → Bool) (f : Player → Player) :
    ∀ l : List Player, (updateFirst q f l).length = l.length := by
  intro l
  induction l with
  | nil => rfl
  | cons a t ih =>
    by_cases hq : q a
    · simp [updateFirst, hq]
    · simp [updateFirst, hq, ih]

theorem mem_updateFirst {q : Player → Bool} {f : Player → Player} :
    ∀ {l : List Player} {b : Player}, b ∈ updateFirst q f l →
      b ∈ l ∨ ∃ a ∈ l, q a = true ∧ b = f a := by
  intro l
  induction l with
  | nil => intro b h; cases h
  | cons a t ih =>
    intro b h
    by_cases hq : q a
    · rw [updateFirst, if_pos hq] at h
      rcases List.mem_cons.1 h with rfl | ht
      · right; exact ⟨a, by simp, hq, rfl⟩
      · left; simp [ht]
    · rw [updateFirst, if_neg hq] at h
      rcases List.mem_cons.1 h with rfl | ht
      · left; simp
      · rcases ih ht with h1 | ⟨c, hc, hqc, rfl⟩
        · left; simp [h1]
        · right; exact ⟨c, by simp [hc], hqc, rfl⟩

theorem checkWinner_fields (ps : List Player) (s : GameState) :
    (checkWinner ps s).players = s.players ∧
    (checkWinner ps s).currentTurnPlayerId = s.currentTurnPlayerId ∧
    (checkWinner ps s).drawnTile = s.drawnTile ∧
    (checkWinner ps s).pool = s.pool ∧
    (checkWinner ps s).moveNumber = s.moveNumber := by
  rcases checkWinner_eq ps s with ⟨a, _, _, hcw⟩ | ⟨_, hcw⟩ <;> rw [hcw] <;>
    exact ⟨rfl, rfl, rfl, rfl, rfl⟩

/-! ## Claims about single operations -/

/-- C9: calling `draw()` in the Draw phase with an empty pool transitions
the phase to Guess, leaves the drawn-tile slot null, leaves the pool and
every hand unchanged, and raises no error (the embedded `drawTile` is a
total function); the only other effect is the log entry. -/
theorem claim_C9 (r : Rat) (s : GameState) (hph : s.phase = GamePhase.DRAW)
    (hpool : s.pool = []) (hdrawn : s.drawnTile = none) :
    (drawTile r s).phase = GamePhase.GUESS ∧ (drawTile r s).drawnTile = none ∧
    (drawTile r s).pool = s.pool ∧ (drawTile r s).players = s.players ∧
    (drawTile r s).currentTurnPlayerId = s.currentTurnPlayerId ∧
    (drawTile r s).winnerId = s.winnerId ∧ (drawTile r s).moveNumber = s.moveNumber ∧
    (drawTile r s).turnLog = ("Pool empty. Proceed to guess." :: s.turnLog).take 50 := by
  have hdt : drawTile r s
      = addLog "Pool empty. Proceed to guess." { s with phase := GamePhase.GUESS } := by
    unfold drawTile
    rw [if_pos hph, hpool]
    exact rfl
  rw [hdt]
  exact ⟨rfl, hdrawn, rfl, rfl, rfl, rfl, rfl, rfl⟩

/-- C3 (amended): on a `GameOver` state the commands `draw()`, the guess
command, `continueGuessing()` and the bot mover leave the state unchanged;
`endTurn`, however, carries no phase guard and still mutates a `GameOver`
state (see the counterexample), though the host never invokes it there. -/
theorem claim_C3_amended (s : GameState) (h : s.phase = GamePhase.GAME_OVER)
    (r : Rat) (pid : String) (i value : Int) (ti : Nat) (v : Int) :
    drawTile r s = s ∧ guess pid i value s = some s ∧ continueTurn s = s ∧
    executeBotMove r pid ti v s = some s := by
  refine ⟨?_, ?_, ?_, ?_⟩ <;>
    simp [drawTile, guess, continueTurn, executeBotMove, h]

/-- On the concrete finished game `wc8` (winner set, phase `GameOver`),
`endTurn` is not a no-op: it resets the phase to `DRAW` and increments the
move counter, refuting the claim that every engine command — including
`endTurn` with either success flag — leaves a `GameOver` state unchanged. -/
theorem claim_C3_cex :
    wc8.phase = GamePhase.GAME_OVER ∧ wc8.winnerId = some "p-0" ∧
    endTurn true wc8 ≠ some wc8 ∧
    (endTurn true wc8).map GameState.phase = some GamePhase.DRAW ∧
    (endTurn true wc8).map GameState.moveNumber = some (wc8.moveNumber + 1) := by
  decide

/-- C4 (amended): a guess command rejected because of a wrong phase, an
unknown or eliminated target, a self-target or an already-revealed target
tile leaves the state unchanged (hence writes no log entry) with no
exception; but an out-of-range tile index against a valid hidden-handed
opponent is not a no-op — the source dereferences
`targetPlayer.hand[tileIndex]` and throws (modelled by `none`). -/
theorem claim_C4_amended (s : GameState) (pid : String) (i value : Int) :
    (s.phase ≠ GamePhase.GUESS → guess pid i value s = some s) ∧
    (s.phase = GamePhase.GUESS →
      (s.players.find? (fun p => p.id = pid) = none → guess pid i value s = some s) ∧
      ∀ tp, s.players.find? (fun p => p.id = pid) = some tp →
        (tp.isEliminated = true → guess pid i value s = some s) ∧
        (tp.id = s.currentTurnPlayerId → guess pid i value s = some s) ∧
        (∀ tt, getInt? tp.hand i = some tt → tt.isRevealed = true →
          guess pid i value s = some s) ∧
        (tp.isEliminated = false → tp.id ≠ s.currentTurnPlayerId →
          getInt? tp.hand i = none → guess pid i value s = none)) := by
  constructor
  · intro h
    simp [guess, h]
  · intro hph
    constructor
    · intro h
      simp [guess, hph, h]
    · intro tp htp
      refine ⟨?_, ?_, ?_, ?_⟩
      · intro h
        simp [guess, hph, htp, h]
      · intro h
        cases he : tp.isEliminated <;> simp [guess, hph, htp, h, he]
      · intro tt hget hrev
        cases he : tp.isEliminated
        · by_cases hself : tp.id = s.currentTurnPlayerId
          · simp [guess, hph, htp, he, hself]
          · simp [guess, hph, htp, he, hself, hget, hrev]
        · simp [guess, hph, htp, he]
      · intro h1 h2 h3
        simp [guess, hph, htp, h1, h2, h3]

/-- An out-of-range tile index (99) against the valid bot opponent on a
concrete Guess-phase state makes the guess command throw (`none`) instead of
being a silent no-op, refuting the "never a crash" part of the claim. -/
theorem claim_C4_cex :
    wc1.phase = GamePhase.GUESS ∧
    wc1.players.find? (fun p => p.id = "p-1") = some wBot ∧
    wBot.isEliminated = false ∧ wBot.id ≠ wc1.currentTurnPlayerId ∧
    guess "p-1" 99 0 wc1 = none := by
  decide

/-- C8 (amended): when the collection's sort keys are pairwise equal or
separated by more than the `0.001` tolerance — which makes the source's
comparator a total preorder — the sorted hand is non-decreasing in sort key
and every epsilon-tied (here: equal-keyed) pair has Black before White.
Without that separation the properties fail (see the counterexample). -/
theorem claim_C8_amended (l : List Tile) (h : GoodKeys l) :
    List.Chain' (fun x y => x.sortValue ≤ y.sortValue) (sortHand l) ∧
    (sortHand l).Pairwise (fun x y =>
      |x.sortValue - y.sortValue| ≤ (1 : Rat)/1000 →
        ¬(x.color = TileColor.white ∧ y.color = TileColor.black)) := by
  have hp := pairwise_sortHand l h
  have hgood : ∀ x ∈ sortHand l, ∀ y ∈ sortHand l,
      x.sortValue = y.sortValue ∨ (1 : Rat)/1000 < ratAbs (x.sortValue - y.sortValue) :=
    fun x hx y hy => h x ((mem_sortHand l).1 hx) y ((mem_sortHand l).1 hy)
  constructor
  · refine List.Pairwise.chain' (hp.imp_of_mem ?_)
    intro a b ha hb hle
    rcases hgood a ha b hb with he | hf
    · exact le_of_eq he
    · rw [tileLe_of_far hf] at hle
      exact le_of_lt (by simpa using hle)
  · refine hp.imp_of_mem ?_
    intro a b ha hb hle hnear
    rcases hgood a ha b hb with he | hf
    · rw [tileLe_of_eq_keys he] at hle
      rintro ⟨haw, hbb⟩
      rw [haw, hbb] at hle
      simp at hle
    · rw [ratAbs_eq_abs] at hf
      exact absurd hnear (not_le.2 hf)

theorem revealPlayers_get? (tid : String) (ti : Nat) (ps : List Player) (k : Nat) :
    (revealPlayers tid ti ps).get? k
      = (ps.get? k).map (fun p => if p.id = tid then { p with hand := revealAt p.hand ti } else p) := by
  unfold revealPlayers
  rw [List.get?_map]

theorem revealPlayers_length (tid : String) (ti : Nat) (ps : List Player) :
    (revealPlayers tid ti ps).length = ps.length := by
  unfold revealPlayers
  rw [List.length_map]

theorem elimPlayers_length (tid : String) (ps : List Player) :
    (elimPlayers tid ps).length = ps.length :=
  updateFirst_length _ _ ps

/-- Unfolding of a validated correct guess: the source reveals the target
tile, possibly eliminates the target (logging first), enters `RESOLVE` and
then evaluates victory on the updated roster. -/
theorem guess_correct_eq (s : GameState) (pid : String) (i : Nat) (v : Int)
    (tp : Player) (tt : Tile)
    (hph : s.phase = GamePhase.GUESS)
    (hfind : s.players.find? (fun p => p.id = pid) = some tp)
    (helim : tp.isEliminated = false)
    (hself : tp.id ≠ s.currentTurnPlayerId)
    (hget : tp.hand.get? i = some tt)
    (hrev : tt.isRevealed = false)
    (hval : tt.value = v) :
    guess pid (i : Int) v s = some (checkWinner
      (if allRevealedAfter pid (revealPlayers pid i s.players)
        then elimPlayers pid (revealPlayers pid i s.players)
        else revealPlayers pid i s.players)
      (addLog ("Correct! It was " ++ (if tt.isJoker then "a Joker" else toString tt.value) ++ ".")
        { (if allRevealedAfter pid (revealPlayers pid i s.players)
            then addLog ((match (revealPlayers pid i s.players).find? (fun p => p.id = pid) with
                          | some up => up.name
                          | none => "") ++ " is eliminated!") s
            else s) with
          players := (if allRevealedAfter pid (revealPlayers pid i s.players)
            then elimPlayers pid (revealPlayers pid i s.players)
            else revealPlayers pid i s.players),
          phase := GamePhase.RESOLVE })) := by
  have hg : guess pid (i : Int) v s = submitGuess pid (i : Int) v s := by
    unfold guess
    rw [if_pos hph]
    simp only [hfind, helim, Bool.false_eq_true, if_false, getInt?_ofNat, hget, hrev]
    rw [if_neg hself]
  rw [hg]
  unfold submitGuess
  simp only [hfind, getInt?_ofNat, hget, Int.toNat_natCast]
  rw [if_pos hval]

/-- C2 (amended): a valid correct guess submitted through the human guess
path (`handleTileClick` then `submitGuess`) marks exactly the target tile
revealed — every other player's entry is untouched, the target keeps its
identity and hand order with only the guessed tile's revealed flag set — and
moves to `Resolve` (or `GameOver` with the winner set, when the reveal
eliminated the last opponent), with the acting player, drawn tile, pool and
move counter unchanged.  The automated agent's correct guess does not go
through this path (see the counterexample). -/
theorem claim_C2_amended (s : GameState) (pid : String) (i : Nat) (v : Int)
    (tp : Player) (tt : Tile)
    (hph : s.phase = GamePhase.GUESS)
    (hfind : s.players.find? (fun p => p.id = pid) = some tp)
    (helim : tp.isEliminated = false)
    (hself : tp.id ≠ s.currentTurnPlayerId)
    (hget : tp.hand.get? i = some tt)
    (hrev : tt.isRevealed = false)
    (hval : tt.value = v) :
    ∃ s', guess pid (i : Int) v s = some s' ∧
      s'.currentTurnPlayerId = s.currentTurnPlayerId ∧
      s'.moveNumber = s.moveNumber ∧
      s'.drawnTile = s.drawnTile ∧
      s'.pool = s.pool ∧
      (s'.phase = GamePhase.RESOLVE ∨
        (s'.phase = GamePhase.GAME_OVER ∧ s'.winnerId.isSome = true)) ∧
      s'.players.length = s.players.length ∧
      (∀ k p, s.players.get? k = some p → p.id ≠ pid → s'.players.get? k = some p) ∧
      (∀ k p, s.players.get? k = some p → p.id = pid →
        ∃ q, s'.players.get? k = some q ∧ q.hand = revealAt p.hand i ∧ q.id = p.id ∧
          q.name = p.name ∧ q.isBot = p.isBot ∧ q.avatar = p.avatar) := by
  refine ⟨_, guess_correct_eq s pid i v tp tt hph hfind helim hself hget hrev hval,
    ?_, ?_, ?_, ?_, ?_, ?_, ?_, ?_⟩
  case _ => -- acting player unchanged
    refine ((checkWinner_fields _ _).2.1).trans ?_
    cases hA : allRevealedAfter pid (revealPlayers pid i s.players) <;> rfl
  case _ =>
    refine ((checkWinner_fields _ _).2.2.2.2).trans ?_
    cases hA : allRevealedAfter pid (revealPlayers pid i s.players) <;> rfl
  case _ =>
    refine ((checkWinner_fields _ _).2.2.1).trans ?_
    cases hA : allRevealedAfter pid (revealPlayers pid i s.players) <;> rfl
  case _ =>
    refine ((checkWinner_fields _ _).2.2.2.1).trans ?_
    cases hA : allRevealedAfter pid (revealPlayers pid i s.players) <;> rfl
  case _ => -- phase
    rcases checkWinner_eq
        (if allRevealedAfter pid (revealPlayers pid i s.players)
          then elimPlayers pid (revealPlayers pid i s.players)
          else revealPlayers pid i s.players) _ with ⟨a, _, _, hcw⟩ | ⟨_, hcw⟩
    · right
      rw [hcw]
      exact ⟨rfl, rfl⟩
    · left
      rw [hcw]
      rfl
  case _ => -- length
    rw [(checkWinner_fields _ _).1]
    show List.length (if allRevealedAfter pid (revealPlayers pid i s.players) = true
        then elimPlayers pid (revealPlayers pid i s.players)
        else revealPlayers pid i s.players) = s.players.length
    cases hA : allRevealedAfter pid (revealPlayers pid i s.players)
    · rw [if_neg (by simp), revealPlayers_length]
    · rw [if_pos rfl, elimPlayers_length, revealPlayers_length]
  case _ => -- non-target rows unchanged
    intro k p hk hne
    rw [(checkWinner_fields _ _).1]
    have hNP : (revealPlayers pid i s.players).get? k = some p := by
      rw [revealPlayers_get?, hk]
      simp [hne]
    have hupd : (elimPlayers pid (revealPlayers pid i s.players)).get? k = some p := by
      unfold elimPlayers
      rcases updateFirst_get? (fun p => decide (p.id = pid))
          (fun p => { p with isEliminated := true })
          (revealPlayers pid i s.players) k with h | ⟨a, ha, hqa, _⟩
      · rw [h, hNP]
      · rw [hNP] at ha
        cases ha
        exact absurd (of_decide_eq_true hqa) hne
    show List.get? (if allRevealedAfter pid (revealPlayers pid i s.players) = true
        then elimPlayers pid (revealPlayers pid i s.players)
        else revealPlayers pid i s.players) k = some p
    cases hA : allRevealedAfter pid (revealPlayers pid i s.players)
    · rw [if_neg (by simp)]
      exact hNP
    · rw [if_pos rfl]
      exact hupd
  case _ => -- the target row: exactly the guessed tile revealed
    intro k p hk heq
    rw [(checkWinner_fields _ _).1]
    have hNP : (revealPlayers pid i s.players).get? k
        = some { p with hand := revealAt p.hand i } := by
      rw [revealPlayers_get?, hk]
      simp [heq]
    have hupd : ∃ q, (elimPlayers pid (revealPlayers pid i s.players)).get? k = some q ∧
        q.hand = revealAt p.hand i ∧ q.id = p.id ∧ q.name = p.name ∧ q.isBot = p.isBot ∧
        q.avatar = p.avatar := by
      unfold elimPlayers
      rcases updateFirst_get? (fun p => decide (p.id = pid))
          (fun p => { p with isEliminated := true })
          (revealPlayers pid i s.players) k with h | ⟨a, ha, _, hres⟩
      · refine ⟨{ p with hand := revealAt p.hand i }, ?_, rfl, rfl, rfl, rfl, rfl⟩
        rw [h, hNP]
      · rw [hNP] at ha
        cases ha
        exact ⟨_, hres, rfl, rfl, rfl, rfl, rfl⟩
    show ∃ q, List.get? (if allRevealedAfter pid (revealPlayers pid i s.players) = true
        then elimPlayers pid (revealPlayers pid i s.players)
        else revealPlayers pid i s.players) k = some q ∧
        q.hand = revealAt p.hand i ∧ q.id = p.id ∧ q.name = p.name ∧ q.isBot = p.isBot ∧
        q.avatar = p.avatar
    cases hA : allRevealedAfter pid (revealPlayers pid i s.players)
    · rw [if_neg (by simp)]
      exact ⟨_, hNP, rfl, rfl, rfl, rfl, rfl⟩
    · rw [if_pos rfl]
      exact hupd

/-- The automated agent's correct guess on a concrete Guess-phase state:
the target tile is valid, hidden and guessed correctly, yet the resulting
phase is `DRAW` — not `Resolve` — and the acting player changes from the bot
to its opponent, refuting the claim for automated actors. -/
theorem claim_C2_cex :
    botTurn.phase = GamePhase.GUESS ∧
    botTurn.currentTurnPlayerId = "p-1" ∧
    botTurn.players.find? (fun p => p.id = "p-0") = some wAlice ∧
    wAlice.isEliminated = false ∧
    wAlice.hand.get? 0 = some (tileB "b-4" 4) ∧
    (tileB "b-4" 4).isRevealed = false ∧
    (tileB "b-4" 4).value = 4 ∧
    (executeBotMove 0 "p-0" 0 4 botTurn).map GameState.phase = some GamePhase.DRAW ∧
    (executeBotMove 0 "p-0" 0 4 botTurn).map GameState.currentTurnPlayerId = some "p-0" ∧
    (executeBotMove 0 "p-0" 0 4 botTurn).map GameState.moveNumber = some botTurn.moveNumber := by
  decide

/-- A white tile with key `0` and a black joker with key `1/2000`: the keys
differ by less than the tolerance, so the comparator puts Black first and the
sorted output is strictly decreasing in sort key — refuting the unconditional
"every adjacent pair is non-decreasing in sort key". -/
theorem claim_C8_cex :
    sortHand [tileW "w-0" 0,
        ⟨"b-joker", TileColor.black, -1, (1 : Rat)/2000, false, none, true, false⟩]
      = [⟨"b-joker", TileColor.black, -1, (1 : Rat)/2000, false, none, true, false⟩,
         tileW "w-0" 0] ∧
    ¬((⟨"b-joker", TileColor.black, -1, (1 : Rat)/2000, false, none, true, false⟩ : Tile).sortValue
        ≤ (tileW "w-0" 0).sortValue) := by
  decide

/-! ## End-of-turn reconciliation -/

theorem isActiveAt_iff (players : List Player) (j : Nat) :
    isActiveAt players j = true ↔
      ∃ p, players.get? j = some p ∧ p.isEliminated = false := by
  unfold isActiveAt
  cases hp : players.get? j with
  | none => simp
  | some p => simp [hp]

theorem endTurnStart_eq (s : GameState) (len : Nat) (i : Nat)
    (hidx : s.players.findIdx? (fun p => p.id = s.currentTurnPlayerId) = some i) :
    endTurnStart s len = (i + 1) % len := by
  unfold endTurnStart
  rw [hidx]
  show (((i : Int) + 1) % (len : Int)).toNat = (i + 1) % len
  have h1 : ((i : Int) + 1) = ((i + 1 : Nat) : Int) := by push_cast; ring
  rw [h1, ← Int.natCast_mod, Int.toNat_natCast]

theorem endTurn_some_of {b : Bool} {s : GameState} {newPlayers : List Player} {j : Nat}
    {np : Player}
    (hm : mergeDrawn b s = some newPlayers)
    (hlen : newPlayers.length ≠ 0)
    (hna : nextActiveIdx newPlayers (endTurnStart s newPlayers.length) newPlayers.length = some j)
    (hget : newPlayers.get? j = some np) :
    endTurn b s = some
      { players := newPlayers, currentTurnPlayerId := np.id, drawnTile := none,
        pool := s.pool, phase := GamePhase.DRAW, winnerId := s.winnerId,
        turnLog := s.turnLog, moveNumber := s.moveNumber + 1 } := by
  unfold endTurn
  simp only [hm, hlen, if_false, hna, hget]

theorem endTurn_some_inv {b : Bool} {s s' : GameState} (h : endTurn b s = some s') :
    ∃ newPlayers j np,
      mergeDrawn b s = some newPlayers ∧
      nextActiveIdx newPlayers (endTurnStart s newPlayers.length) newPlayers.length = some j ∧
      newPlayers.get? j = some np ∧
      s' = { players := newPlayers, currentTurnPlayerId := np.id, drawnTile := none,
             pool := s.pool, phase := GamePhase.DRAW, winnerId := s.winnerId,
             turnLog := s.turnLog, moveNumber := s.moveNumber + 1 } := by
  unfold endTurn at h
  split at h
  · cases h
  · rename_i newPlayers hm
    split at h
    · cases h
    · split at h
      · cases h
      · rename_i j hna
        split at h
        · cases h
        · rename_i np hget
          cases h
          exact ⟨newPlayers, j, np, hm, hna, hget, rfl⟩

theorem mergeDrawn_none (b : Bool) {s : GameState} (h : s.drawnTile = none) :
    mergeDrawn b s = some s.players := by
  unfold mergeDrawn
  rw [h]

theorem mergeDrawn_merge (b : Bool) {s : GameState} {dt : Tile} {i : Nat} {cp : Player}
    (hdt : s.drawnTile = some dt)
    (hidx : s.players.findIdx? (fun p => p.id = s.currentTurnPlayerId) = some i)
    (hcp : s.players.get? i = some cp) :
    mergeDrawn b s = some (s.players.set i
      { cp with hand := sortHand (cp.hand ++
          [if b then dt else { dt with isRevealed := true }]) }) := by
  unfold mergeDrawn
  simp only [hdt, hidx, hcp]

theorem mergeDrawn_cases (b : Bool) (s : GameState) :
    (s.drawnTile = none ∧ mergeDrawn b s = some s.players) ∨
    (∃ dt, s.drawnTile = some dt ∧
      ((∃ i cp, s.players.findIdx? (fun p => p.id = s.currentTurnPlayerId) = some i ∧
          s.players.get? i = some cp ∧
          mergeDrawn b s = some (s.players.set i
            { cp with hand := sortHand (cp.hand ++
                [if b then dt else { dt with isRevealed := true }]) })) ∨
        mergeDrawn b s = none)) := by
  cases hdt : s.drawnTile with
  | none => left; exact ⟨rfl, mergeDrawn_none b hdt⟩
  | some dt =>
    right
    refine ⟨dt, rfl, ?_⟩
    cases hidx : s.players.findIdx? (fun p => p.id = s.currentTurnPlayerId) with
    | none =>
      right
      unfold mergeDrawn
      simp only [hdt, hidx]
    | some i =>
      cases hcp : s.players.get? i with
      | none =>
        right
        unfold mergeDrawn
        simp only [hdt, hidx, hcp]
      | some cp => left; exact ⟨i, cp, rfl, hcp, mergeDrawn_merge b hdt hidx hcp⟩

/-- C6: ending the turn after a failed guess, with a drawn tile present, a
valid acting player and at least one non-eliminated player, marks the drawn
tile revealed, inserts it into the acting player's hand re-sorted by the
ordering policy, clears the drawn slot, resets the phase to Draw, increments
the move counter, and hands the turn to the first non-eliminated player
strictly after the acting seat in cyclic order. -/
theorem claim_C6 (s : GameState) (dt : Tile) (i : Nat) (cp : Player)
    (hdt : s.drawnTile = some dt)
    (hidx : s.players.findIdx? (fun p => p.id = s.currentTurnPlayerId) = some i)
    (hcp : s.players.get? i = some cp)
    (hact : ∃ p ∈ s.players, p.isEliminated = false) :
    ∃ s' j np,
      endTurn false s = some s' ∧
      s'.players = s.players.set i
        { cp with hand := sortHand (cp.hand ++ [{ dt with isRevealed := true }]) } ∧
      s'.phase = GamePhase.DRAW ∧ s'.drawnTile = none ∧ s'.pool = s.pool ∧
      s'.moveNumber = s.moveNumber + 1 ∧ s'.winnerId = s.winnerId ∧
      cyclicFirstActive s'.players ((i + 1) % s'.players.length) = some j ∧
      s'.players.get? j = some np ∧ np.isEliminated = false ∧
      s'.currentTurnPlayerId = np.id := by
  have hilt : i < s.players.length := (List.findIdx?_eq_some_iff_findIdx_eq.1 hidx).1
  have hmerge : mergeDrawn false s = some (s.players.set i
      { cp with hand := sortHand (cp.hand ++ [{ dt with isRevealed := true }]) }) := by
    have h := mergeDrawn_merge false hdt hidx hcp
    simpa using h
  set NP := s.players.set i
    { cp with hand := sortHand (cp.hand ++ [{ dt with isRevealed := true }]) } with hNP
  have hlenNP : NP.length = s.players.length := List.length_set s.players i _
  have hpos : 0 < NP.length := by omega
  have hlen0 : NP.length ≠ 0 := by omega
  have hstartlt : (i + 1) % NP.length < NP.length := Nat.mod_lt _ hpos
  have hstart : endTurnStart s NP.length = (i + 1) % NP.length := endTurnStart_eq s _ i hidx
  have hactNP : ∃ p ∈ NP, p.isEliminated = false := by
    obtain ⟨p, hpm, hpe⟩ := hact
    obtain ⟨k, hk⟩ := List.mem_iff_get?.1 hpm
    by_cases hki : k = i
    · subst hki
      rw [hk] at hcp
      cases hcp
      have hgk : NP.get? k
          = some { cp with hand := sortHand (cp.hand ++ [{ dt with isRevealed := true }]) } := by
        rw [hNP, List.get?_eq_getElem?]
        exact List.getElem?_set_self (by omega)
      exact ⟨_, List.get?_mem hgk, hpe⟩
    · have hgk : NP.get? k = some p := by
        rw [hNP, List.get?_eq_getElem?, List.getElem?_set_ne (fun hh => hki hh.symm),
          ← List.get?_eq_getElem?]
        exact hk
      exact ⟨p, List.get?_mem hgk, hpe⟩
  have hsome : (cyclicFirstActive NP ((i + 1) % NP.length)).isSome = true :=
    cyclicFirstActive_isSome NP _ hstartlt hactNP
  obtain ⟨j, hj⟩ := Option.isSome_iff_exists.1 hsome
  have hactj : isActiveAt NP j = true := by
    have := List.find?_some hj
    exact this
  obtain ⟨np, hnp, hnpe⟩ := (isActiveAt_iff NP j).1 hactj
  have hna : nextActiveIdx NP (endTurnStart s NP.length) NP.length = some j := by
    rw [hstart, nextActiveIdx_eq_spec NP NP.length _ hstartlt]
    exact hj
  refine ⟨_, j, np, endTurn_some_of hmerge hlen0 hna hnp, rfl, rfl, rfl, rfl, rfl, rfl,
    ?_, hnp, hnpe, rfl⟩
  exact hj

/-! ## List toolkit for the invariant proofs -/

theorem orderedInsert_perm (a : Tile) (l : List Tile) : (orderedInsert a l).Perm (a :: l) := by
  induction l with
  | nil => exact List.Perm.refl _
  | cons b t ih =>
    unfold orderedInsert
    split
    · exact List.Perm.refl _
    · exact (List.Perm.cons b ih).trans (List.Perm.swap a b t)

theorem sortHand_perm (l : List Tile) : (sortHand l).Perm l := by
  induction l with
  | nil => exact List.Perm.refl _
  | cons a t ih => exact (orderedInsert_perm a (sortHand t)).trans (List.Perm.cons a ih)

theorem mem_sortHand_append {t : Tile} {l : List Tile} {x : Tile}
    (h : t ∈ l ∨ t = x) : t ∈ sortHand (l ++ [x]) := by
  rw [mem_sortHand, List.mem_append, List.mem_singleton]
  tauto

theorem set_get?_self {α : Type _} : ∀ (l : List α) (i : Nat) (x : α), l.get? i = some x →
    l.set i x = l := by
  intro l
  induction l with
  | nil => intro i x h; cases h
  | cons a t ih =>
    intro i x h
    cases i with
    | zero =>
      cases h
      rfl
    | succ n =>
      simp only [List.get?_cons_succ] at h
      simp [List.set, ih n x h]

theorem revealAt_map_id (l : List Tile) (i : Nat) :
    (revealAt l i).map Tile.id = l.map Tile.id := by
  unfold revealAt
  cases hg : l.get? i with
  | none => rfl
  | some t =>
    rw [List.map_set]
    apply set_get?_self
    rw [List.get?_map, hg]
    rfl

theorem countActive_map (f : Player → Player) (hf : ∀ p, (f p).isEliminated = p.isEliminated) :
    ∀ ps : List Player, countActive (ps.map f) = countActive ps := by
  intro ps
  induction ps with
  | nil => rfl
  | cons a t ih =>
    show countActive (f a :: t.map f) = countActive (a :: t)
    unfold countActive
    rw [List.filter_cons, List.filter_cons]
    by_cases ha : a.isEliminated
    · rw [if_neg (by simp [hf, ha]), if_neg (by simp [ha])]
      exact ih
    · rw [if_pos (by simp [hf, ha]), if_pos (by simp [ha])]
      simpa [countActive] using ih

theorem countActive_cons (a : Player) (t : List Player) :
    countActive (a :: t) = (if a.isEliminated then 0 else 1) + countActive t := by
  unfold countActive
  rw [List.filter_cons]
  by_cases ha : a.isEliminated
  · rw [if_neg (by simp [ha]), if_pos ha]
    omega
  · rw [if_pos (by simp [ha]), if_neg ha]
    simp [List.length_cons]
    omega

theorem countActive_set : ∀ (ps : List Player) (i : Nat) (cp cp' : Player),
    ps.get? i = some cp → cp'.isEliminated = cp.isEliminated →
    countActive (ps.set i cp') = countActive ps := by
  intro ps
  induction ps with
  | nil => intro i cp cp' h _; cases h
  | cons a t ih =>
    intro i cp cp' h hflag
    cases i with
    | zero =>
      cases h
      rw [show (a :: t).set 0 cp' = cp' :: t from rfl, countActive_cons, countActive_cons, hflag]
    | succ n =>
      simp only [List.get?_cons_succ] at h
      rw [show (a :: t).set (n + 1) cp' = a :: t.set n cp' from rfl,
        countActive_cons, countActive_cons, ih n cp cp' h hflag]

theorem countActive_elimPlayers (tid : String) : ∀ (ps : List Player) (tp : Player),
    ps.find? (fun p => p.id = tid) = some tp → tp.isEliminated = false →
    countActive (elimPlayers tid ps) + 1 = countActive ps := by
  intro ps
  induction ps with
  | nil => intro tp h _; cases h
  | cons a t ih =>
    intro tp h htp
    by_cases ha : a.id = tid
    · rw [List.find?_cons_of_pos _ (by simp [ha])] at h
      cases h
      have hstep : elimPlayers tid (a :: t) = { a with isEliminated := true } :: t := by
        simp only [elimPlayers, updateFirst]
        rw [if_pos (by simp [ha])]
      rw [hstep, countActive_cons, countActive_cons, htp]
      rw [show (if ({ a with isEliminated := true } : Player).isEliminated = true then 0 else 1)
          = 0 from rfl]
      rw [show (if false = true then 0 else 1) = 1 from rfl]
      omega
    · rw [List.find?_cons_of_neg _ (by simp [ha])] at h
      have hstep : elimPlayers tid (a :: t) = a :: elimPlayers tid t := by
        simp only [elimPlayers, updateFirst]
        rw [if_neg (by simp [ha])]
      rw [hstep, countActive_cons, countActive_cons]
      have hih := ih tp h htp
      omega

theorem two_le_length_of_mem_ne {α : Type _} {p q : α} :
    ∀ {l : List α}, p ∈ l → q ∈ l → p ≠ q → 2 ≤ l.length := by
  intro l
  induction l with
  | nil => intro hp _ _; cases hp
  | cons a t ih =>
    intro hp hq hne
    rcases List.mem_cons.1 hp with rfl | hpt
    · rcases List.mem_cons.1 hq with rfl | hqt
      · exact absurd rfl hne
      · have : t ≠ [] := List.ne_nil_of_mem hqt
        have : 1 ≤ t.length := List.length_pos.2 this
        simp [List.length_cons]
        omega
    · have : t ≠ [] := List.ne_nil_of_mem hpt
      have : 1 ≤ t.length := List.length_pos.2 this
      simp [List.length_cons]
      omega

theorem two_le_countActive {ps : List Player} {p q : Player}
    (hp : p ∈ ps) (hq : q ∈ ps) (hne : p.id ≠ q.id)
    (hpe : p.isEliminated = false) (hqe : q.isEliminated = false) :
    2 ≤ countActive ps := by
  have hpf : p ∈ ps.filter (fun x => !x.isEliminated) :=
    List.mem_filter.2 ⟨hp, by simp [hpe]⟩
  have hqf : q ∈ ps.filter (fun x => !x.isEliminated) :=
    List.mem_filter.2 ⟨hq, by simp [hqe]⟩
  exact two_le_length_of_mem_ne hpf hqf (fun h => hne (by rw [h]))

theorem nodup_players_eq {ps : List Player} (h : (ps.map Player.id).Nodup)
    {p q : Player} (hp : p ∈ ps) (hq : q ∈ ps) (hid : p.id = q.id) : p = q :=
  List.inj_on_of_nodup_map h hp hq hid

theorem updateFirst_map_id (q : Player → Bool) (f : Player → Player)
    (hf : ∀ p, (f p).id = p.id) :
    ∀ ps : List Player, (updateFirst q f ps).map Player.id = ps.map Player.id := by
  intro ps
  induction ps with
  | nil => rfl
  | cons a t ih =>
    unfold updateFirst
    split
    · simp [hf]
    · simp only [List.map_cons, ih]

theorem updateFirst_flatMap_hand (q : Player → Bool) (f : Player → Player)
    (hf : ∀ p, (f p).hand = p.hand) :
    ∀ ps : List Player, (updateFirst q f ps).flatMap Player.hand = ps.flatMap Player.hand := by
  intro ps
  induction ps with
  | nil => rfl
  | cons a t ih =>
    unfold updateFirst
    split
    · simp [List.flatMap_cons, hf]
    · simp only [List.flatMap_cons, ih]

theorem revealPlayers_map_id (tid : String) (ti : Nat) (ps : List Player) :
    (revealPlayers tid ti ps).map Player.id = ps.map Player.id := by
  unfold revealPlayers
  rw [List.map_map]
  refine List.map_congr_left ?_
  intro p _
  by_cases hp : p.id = tid <;> simp [hp]

theorem revealPlayers_flatMap_id (tid : String) (ti : Nat) (ps : List Player) :
    ((revealPlayers tid ti ps).flatMap Player.hand).map Tile.id
      = (ps.flatMap Player.hand).map Tile.id := by
  induction ps with
  | nil => rfl
  | cons a t ih =>
    show ((if a.id = tid then { a with hand := revealAt a.hand ti } else a).hand
        ++ (revealPlayers tid ti t).flatMap Player.hand).map Tile.id
      = (a.hand ++ t.flatMap Player.hand).map Tile.id
    rw [List.map_append, List.map_append, ih]
    by_cases hp : a.id = tid
    · rw [if_pos hp]
      show (revealAt a.hand ti).map Tile.id ++ _ = _
      rw [revealAt_map_id]
    · rw [if_neg hp]

theorem elimPlayers_map_id (tid : String) (ps : List Player) :
    (elimPlayers tid ps).map Player.id = ps.map Player.id := by
  unfold elimPlayers
  exact updateFirst_map_id (fun p => decide (p.id = tid))
    (fun p => { p with isEliminated := true }) (fun _ => rfl) ps

theorem elimPlayers_flatMap_hand (tid : String) (ps : List Player) :
    (elimPlayers tid ps).flatMap Player.hand = ps.flatMap Player.hand := by
  unfold elimPlayers
  exact updateFirst_flatMap_hand (fun p => decide (p.id = tid))
    (fun p => { p with isEliminated := true }) (fun _ => rfl) ps

/-- Decompose a `set` at a valid index into its surrounding segments, for
permutation reasoning about one player's hand update. -/
theorem flatMap_hand_set (ps : List Player) (i : Nat) (cp cp' : Player)
    (h : ps.get? i = some cp) :
    ∃ l1 l2, ps.flatMap Player.hand = l1 ++ (cp.hand ++ l2) ∧
      (ps.set i cp').flatMap Player.hand = l1 ++ (cp'.hand ++ l2) := by
  induction ps generalizing i with
  | nil => cases h
  | cons a t ih =>
    cases i with
    | zero =>
      cases h
      exact ⟨[], t.flatMap Player.hand, by simp [List.flatMap_cons], by simp [List.flatMap_cons]⟩
    | succ n =>
      simp only [List.get?_cons_succ] at h
      obtain ⟨l1, l2, h1, h2⟩ := ih n h
      refine ⟨a.hand ++ l1, l2, ?_, ?_⟩
      · rw [List.flatMap_cons, h1, List.append_assoc]
      · show a.hand ++ (t.set n cp').flatMap Player.hand = _
        rw [h2, List.append_assoc]

theorem mem_revealAt {t' : Tile} {l : List Tile} {i : Nat} (h : t' ∈ revealAt l i) :
    t' ∈ l ∨ ∃ t ∈ l, t' = { t with isRevealed := true } := by
  unfold revealAt at h
  cases hg : l.get? i with
  | none =>
    rw [hg] at h
    exact Or.inl h
  | some t =>
    rw [hg] at h
    rcases List.mem_or_eq_of_mem_set h with h1 | rfl
    · exact Or.inl h1
    · exact Or.inr ⟨t, List.get?_mem hg, rfl⟩

theorem find?_map_of_id (f : Player → Player) (hf : ∀ p, (f p).id = p.id)
    (pid : String) :
    ∀ ps : List Player, (ps.map f).find? (fun p => p.id = pid)
      = (ps.find? (fun p => p.id = pid)).map f := by
  intro ps
  induction ps with
  | nil => rfl
  | cons a t ih =>
    show List.find? _ (f a :: t.map f) = _
    by_cases ha : a.id = pid
    · rw [List.find?_cons_of_pos _ (by simp [hf, ha]), List.find?_cons_of_pos _ (by simp [ha])]
      rfl
    · rw [List.find?_cons_of_neg _ (by simp [hf, ha]), List.find?_cons_of_neg _ (by simp [ha])]
      exact ih

theorem mem_updateFirst_of_neg {q : Player → Bool} {f : Player → Player} {p : Player} :
    ∀ {ps : List Player}, p ∈ ps → q p = false → p ∈ updateFirst q f ps := by
  intro ps
  induction ps with
  | nil => intro h _; cases h
  | cons a t ih =>
    intro hmem hq
    rcases List.mem_cons.1 hmem with rfl | ht
    · unfold updateFirst
      rw [if_neg (by simp [hq])]
      exact List.mem_cons_self _ _
    · unfold updateFirst
      split
      · exact List.mem_cons_of_mem _ ht
      · exact List.mem_cons_of_mem _ (ih ht hq)

theorem mem_elimPlayers_target {pid : String} :
    ∀ {NP : List Player}, (NP.map Player.id).Nodup →
      ∀ {timg : Player}, NP.find? (fun p => p.id = pid) = some timg →
      ∀ {p' : Player}, p' ∈ elimPlayers pid NP → p'.id = pid →
      p' = { timg with isEliminated := true } := by
  intro NP
  induction NP with
  | nil => intro _ _ h; cases h
  | cons a t ih =>
    intro hnodup timg hfind p' hmem hid
    have hnodup' : (t.map Player.id).Nodup := (List.nodup_cons.1 hnodup).2
    have hnotin : a.id ∉ t.map Player.id := (List.nodup_cons.1 hnodup).1
    by_cases ha : a.id = pid
    · rw [List.find?_cons_of_pos _ (by simp [ha])] at hfind
      cases hfind
      have hstep : elimPlayers pid (a :: t) = { a with isEliminated := true } :: t := by
        simp only [elimPlayers, updateFirst]
        rw [if_pos (by simp [ha])]
      rw [hstep] at hmem
      rcases List.mem_cons.1 hmem with rfl | ht
      · rfl
      · exfalso
        have hmm : p'.id ∈ t.map Player.id := List.mem_map_of_mem Player.id ht
        rw [hid, ← ha] at hmm
        exact hnotin hmm
    · rw [List.find?_cons_of_neg _ (by simp [ha])] at hfind
      have hstep : elimPlayers pid (a :: t) = a :: elimPlayers pid t := by
        simp only [elimPlayers, updateFirst]
        rw [if_neg (by simp [ha])]
      rw [hstep] at hmem
      rcases List.mem_cons.1 hmem with rfl | ht
      · exact absurd hid ha
      · exact ih hnodup' hfind ht hid

theorem map_id_set {ps : List Player} {i : Nat} {cp cp' : Player}
    (hcp : ps.get? i = some cp) (hid : cp'.id = cp.id) :
    (ps.set i cp').map Player.id = ps.map Player.id := by
  rw [List.map_set, hid]
  apply set_get?_self
  rw [List.get?_map, hcp]
  rfl

theorem flatMap_map_ids_perm (f : Player → Player) :
    ∀ ps : List Player,
      (∀ p ∈ ps, (((f p).hand.map Tile.id)).Perm (p.hand.map Tile.id)) →
      (((ps.map f).flatMap Player.hand).map Tile.id).Perm
        ((ps.flatMap Player.hand).map Tile.id) := by
  intro ps
  induction ps with
  | nil => intro _; exact List.Perm.refl _
  | cons a t ih =>
    intro hf
    have h1 : ((a :: t).map f).flatMap Player.hand
        = (f a).hand ++ (t.map f).flatMap Player.hand := by
      simp [List.flatMap_cons]
    have h2 : (a :: t).flatMap Player.hand = a.hand ++ t.flatMap Player.hand := by
      simp [List.flatMap_cons]
    rw [h1, h2, List.map_append, List.map_append]
    exact List.Perm.append (hf a (by simp)) (ih (fun p hp => hf p (by simp [hp])))

theorem mem_tilesOf_of_hand {s : GameState} {p : Player} {t : Tile}
    (hp : p ∈ s.players) (ht : t ∈ p.hand) : t ∈ tilesOf s := by
  unfold tilesOf
  exact List.mem_append.2 (Or.inr (List.mem_flatMap.2 ⟨p, hp, ht⟩))

theorem mem_tilesOf_of_pool {s : GameState} {t : Tile} (ht : t ∈ s.pool) : t ∈ tilesOf s := by
  unfold tilesOf
  exact List.mem_append.2 (Or.inl (List.mem_append.2 (Or.inl ht)))

theorem mem_tilesOf_of_drawn {s : GameState} {t : Tile} (ht : s.drawnTile = some t) :
    t ∈ tilesOf s := by
  unfold tilesOf
  refine List.mem_append.2 (Or.inl (List.mem_append.2 (Or.inr ?_)))
  rw [ht]
  exact List.mem_singleton.2 rfl

theorem tiles_inj {s : GameState} (h : TileIdsInv s) {t1 t2 : Tile}
    (h1 : t1 ∈ tilesOf s) (h2 : t2 ∈ tilesOf s) (hid : t1.id = t2.id) : t1 = t2 :=
  List.inj_on_of_nodup_map h h1 h2 hid

/-! ## Facts about the reveal-then-maybe-eliminate update -/

theorem revealPlayers_flag (tid : String) (ti : Nat) (p : Player) :
    ((if p.id = tid then { p with hand := revealAt p.hand ti } else p) : Player).isEliminated
      = p.isEliminated := by
  split <;> rfl

theorem revealPlayers_find? {ps : List Player} {pid : String} {tp : Player} (ti : Nat)
    (htp : ps.find? (fun p => p.id = pid) = some tp) :
    (revealPlayers pid ti ps).find? (fun p => p.id = pid)
      = some { tp with hand := revealAt tp.hand ti } := by
  unfold revealPlayers
  rw [find?_map_of_id _ (fun p => by split <;> rfl) pid ps, htp]
  have htpid : tp.id = pid := by simpa using List.find?_some htp
  show some (if tp.id = pid then _ else tp) = _
  rw [if_pos htpid]

theorem elimUpdate_ids {ps : List Player} (pid : String) (ti : Nat) (AR : Bool) :
    ((if AR then elimPlayers pid (revealPlayers pid ti ps)
      else revealPlayers pid ti ps).map Player.id) = ps.map Player.id := by
  cases AR
  · rw [if_neg (by simp)]
    exact revealPlayers_map_id pid ti ps
  · rw [if_pos rfl, elimPlayers_map_id, revealPlayers_map_id]

theorem elimUpdate_hand_ids {ps : List Player} (pid : String) (ti : Nat) (AR : Bool) :
    (((if AR then elimPlayers pid (revealPlayers pid ti ps)
      else revealPlayers pid ti ps).flatMap Player.hand).map Tile.id)
      = ((ps.flatMap Player.hand).map Tile.id) := by
  cases AR
  · rw [if_neg (by simp)]
    exact revealPlayers_flatMap_id pid ti ps
  · rw [if_pos rfl, elimPlayers_flatMap_hand, revealPlayers_flatMap_id]

theorem elimUpdate_count {ps : List Player} {pid : String} {tp : Player} (ti : Nat)
    (htp : ps.find? (fun p => p.id = pid) = some tp)
    (htpe : tp.isEliminated = false) :
    (allRevealedAfter pid (revealPlayers pid ti ps) = true →
      countActive (elimPlayers pid (revealPlayers pid ti ps)) + 1 = countActive ps) ∧
    countActive (revealPlayers pid ti ps) = countActive ps := by
  have hcnt : countActive (revealPlayers pid ti ps) = countActive ps :=
    countActive_map _ (revealPlayers_flag pid ti) ps
  refine ⟨?_, hcnt⟩
  intro _
  rw [← hcnt]
  exact countActive_elimPlayers pid (revealPlayers pid ti ps) _
    (revealPlayers_find? ti htp) htpe

theorem elimUpdate_elimInv {ps : List Player} {pid : String} {tp : Player} {ti : Nat}
    (hnodup : (ps.map Player.id).Nodup)
    (htp : ps.find? (fun p => p.id = pid) = some tp)
    (hElim : ∀ p ∈ ps, (∀ t ∈ p.hand, t.isRevealed = true) → p.isEliminated = true) :
    ∀ p' ∈ (if allRevealedAfter pid (revealPlayers pid ti ps)
        then elimPlayers pid (revealPlayers pid ti ps)
        else revealPlayers pid ti ps),
      (∀ t ∈ p'.hand, t.isRevealed = true) → p'.isEliminated = true := by
  have htpid : tp.id = pid := by simpa using List.find?_some htp
  have htpm : tp ∈ ps := List.mem_of_find?_eq_some htp
  have hNPnodup : ((revealPlayers pid ti ps).map Player.id).Nodup := by
    rw [revealPlayers_map_id]
    exact hnodup
  have hfr := @revealPlayers_find? ps pid tp ti htp
  intro p' hmem hall
  cases hA : allRevealedAfter pid (revealPlayers pid ti ps) with
  | false =>
    rw [hA] at hmem
    rw [if_neg (by simp)] at hmem
    obtain ⟨p, hp, hpeq⟩ := List.mem_map.1 hmem
    by_cases hpid : p.id = pid
    · have hptp : p = tp := nodup_players_eq hnodup hp htpm (by rw [hpid, htpid])
      subst hptp
      rw [if_pos hpid] at hpeq
      exfalso
      have : allRevealedAfter pid (revealPlayers pid ti ps) = true := by
        unfold allRevealedAfter
        rw [hfr]
        show (revealAt p.hand ti).all (fun t => t.isRevealed) = true
        rw [List.all_eq_true]
        intro t ht
        exact hall t (by rw [← hpeq]; exact ht)
      rw [hA] at this
      cases this
    · rw [if_neg hpid] at hpeq
      subst hpeq
      exact hElim p hp hall
  | true =>
    rw [hA] at hmem
    rw [if_pos rfl] at hmem
    by_cases hpid : p'.id = pid
    · have := mem_elimPlayers_target hNPnodup hfr hmem hpid
      rw [this]
    · have hmem' : p' ∈ revealPlayers pid ti ps ∨
          ∃ a ∈ revealPlayers pid ti ps, (decide (a.id = pid)) = true ∧
            p' = { a with isEliminated := true } := by
        unfold elimPlayers at hmem
        exact mem_updateFirst hmem
      rcases hmem' with hmem' | ⟨a, _, hqa, rfl⟩
      · obtain ⟨p, hp, hpeq⟩ := List.mem_map.1 hmem'
        by_cases hpid2 : p.id = pid
        · rw [if_pos hpid2] at hpeq
          exfalso
          apply hpid
          rw [← hpeq]
          show p.id = pid
          exact hpid2
        · rw [if_neg hpid2] at hpeq
          subst hpeq
          exact hElim p hp hall
      · rfl

theorem elimUpdate_mem_of_ne {ps : List Player} {pid : String} {pc : Player} {ti : Nat}
    (hpc : pc ∈ ps) (hne : pc.id ≠ pid) (AR : Bool) :
    pc ∈ (if AR then elimPlayers pid (revealPlayers pid ti ps)
      else revealPlayers pid ti ps) := by
  have hmemNP : pc ∈ revealPlayers pid ti ps := by
    unfold revealPlayers
    have : pc = (if pc.id = pid then { pc with hand := revealAt pc.hand ti } else pc) := by
      rw [if_neg hne]
    rw [this]
    exact List.mem_map_of_mem _ hpc
  cases AR
  · rw [if_neg (by simp)]
    exact hmemNP
  · rw [if_pos rfl]
    unfold elimPlayers
    exact mem_updateFirst_of_neg hmemNP (by simp [hne])

theorem nodup_of_coe_eq {α : Type _} {l1 l2 : List α}
    (h : (l1 : Multiset α) = (l2 : Multiset α)) (hn : l2.Nodup) : l1.Nodup := by
  rw [← Multiset.coe_nodup] at hn ⊢
  rwa [h]

theorem mem_revealAt_fwd {t : Tile} {l : List Tile} (i : Nat) (h : t ∈ l) :
    ∃ t' ∈ revealAt l i, t'.id = t.id ∧ t'.sortValue = t.sortValue ∧ t'.value = t.value ∧
      t'.isJoker = t.isJoker ∧ t'.isPlaced = t.isPlaced := by
  unfold revealAt
  cases hg : l.get? i with
  | none => exact ⟨t, h, rfl, rfl, rfl, rfl, rfl⟩
  | some t0 =>
    obtain ⟨k, hk⟩ := List.mem_iff_get?.1 h
    by_cases hki : k = i
    · subst hki
      rw [hk] at hg
      cases hg
      refine ⟨{ t with isRevealed := true }, ?_, rfl, rfl, rfl, rfl, rfl⟩
      have hlt : k < l.length := by
        rw [List.get?_eq_getElem?] at hk
        exact (List.getElem?_eq_some_iff.1 hk).1
      apply List.get?_mem
      rw [List.get?_eq_getElem?]
      exact List.getElem?_set_self hlt
    · refine ⟨t, ?_, rfl, rfl, rfl, rfl, rfl⟩
      apply List.get?_mem
      rw [List.get?_eq_getElem?, List.getElem?_set_ne (fun hh => hki hh.symm),
        ← List.get?_eq_getElem?]
      exact hk

theorem elimUpdate_tiles {ps : List Player} (pid : String) (ti : Nat) (AR : Bool) :
    ∀ t' ∈ (if AR then elimPlayers pid (revealPlayers pid ti ps)
        else revealPlayers pid ti ps).flatMap Player.hand,
      ∃ t ∈ ps.flatMap Player.hand, t'.id = t.id ∧ t'.sortValue = t.sortValue ∧
        t'.value = t.value ∧ t'.isJoker = t.isJoker ∧ t'.isPlaced = t.isPlaced := by
  intro t' hmem
  have hmemNP : t' ∈ (revealPlayers pid ti ps).flatMap Player.hand := by
    cases AR
    · rw [if_neg (by simp)] at hmem
      exact hmem
    · rw [if_pos rfl, elimPlayers_flatMap_hand] at hmem
      exact hmem
  obtain ⟨p', hp', ht'⟩ := List.mem_flatMap.1 hmemNP
  obtain ⟨p, hp, hpeq⟩ := List.mem_map.1 hp'
  by_cases hpid : p.id = pid
  · rw [if_pos hpid] at hpeq
    subst hpeq
    rcases mem_revealAt ht' with h | ⟨t, htm, rfl⟩
    · exact ⟨t', List.mem_flatMap.2 ⟨p, hp, h⟩, rfl, rfl, rfl, rfl, rfl⟩
    · exact ⟨t, List.mem_flatMap.2 ⟨p, hp, htm⟩, rfl, rfl, rfl, rfl, rfl⟩
  · rw [if_neg hpid] at hpeq
    subst hpeq
    exact ⟨t', List.mem_flatMap.2 ⟨p, hp, ht'⟩, rfl, rfl, rfl, rfl, rfl⟩

theorem elimUpdate_tiles_fwd {ps : List Player} (pid : String) (ti : Nat) (AR : Bool) :
    ∀ t ∈ ps.flatMap Player.hand,
      ∃ t' ∈ (if AR then elimPlayers pid (revealPlayers pid ti ps)
          else revealPlayers pid ti ps).flatMap Player.hand,
        t'.id = t.id ∧ t'.sortValue = t.sortValue ∧ t'.value = t.value ∧
          t'.isJoker = t.isJoker ∧ t'.isPlaced = t.isPlaced := by
  intro t hmem
  suffices h : ∃ t' ∈ (revealPlayers pid ti ps).flatMap Player.hand,
      t'.id = t.id ∧ t'.sortValue = t.sortValue ∧ t'.value = t.value ∧
        t'.isJoker = t.isJoker ∧ t'.isPlaced = t.isPlaced by
    cases AR
    · rw [if_neg (by simp)]
      exact h
    · rw [if_pos rfl, elimPlayers_flatMap_hand]
      exact h
  obtain ⟨p, hp, ht⟩ := List.mem_flatMap.1 hmem
  by_cases hpid : p.id = pid
  · obtain ⟨t', ht', hfields⟩ := @mem_revealAt_fwd t p.hand ti ht
    refine ⟨t', List.mem_flatMap.2 ⟨{ p with hand := revealAt p.hand ti }, ?_, ht'⟩, hfields⟩
    exact List.mem_map.2 ⟨p, hp, by rw [if_pos hpid]⟩
  · refine ⟨t, List.mem_flatMap.2 ⟨p, ?_, ht⟩, rfl, rfl, rfl, rfl, rfl⟩
    exact List.mem_map.2 ⟨p, hp, by rw [if_neg hpid]⟩

/-! ## Soundness of the individual operations -/

theorem drawnInv_of_ne {s' : GameState} (h : s'.phase ≠ GamePhase.DRAW) : DrawnInv s' :=
  fun hph => absurd hph h

theorem stepSound_self {s : GameState} (h : Inv s) : StepSound s s :=
  ⟨h, fun h1 hne => absurd h1 hne, fun t ht hp => ⟨t, ht, rfl, rfl, hp⟩⟩

theorem drawTile_cases (r : Rat) (s : GameState) :
    drawTile r s = s ∨
    (∃ m, drawTile r s = addLog m { s with phase := GamePhase.GUESS }) ∨
    (∃ m l' tile t2, s.phase = GamePhase.DRAW ∧ s.pool = l' ++ [tile] ∧
      t2.id = tile.id ∧ t2.isPlaced = tile.isPlaced ∧ t2.value = tile.value ∧
      t2.isJoker = tile.isJoker ∧ (t2.sortValue = tile.sortValue ∨ t2.isJoker = true) ∧
      drawTile r s = addLog m
        { s with pool := l', drawnTile := some t2, phase := GamePhase.GUESS }) := by
  by_cases hph : s.phase = GamePhase.DRAW
  · cases hlast : s.pool.getLast? with
    | none =>
      right; left
      refine ⟨"Pool empty. Proceed to guess.", ?_⟩
      unfold drawTile
      rw [if_pos hph, hlast]
    | some tile =>
      right; right
      obtain ⟨l', hl'⟩ := List.getLast?_eq_some_iff.1 hlast
      have hdrop : s.pool.dropLast = l' := by
        rw [hl']
        exact List.dropLast_concat
      set b0 : Bool := (match s.players.find? (fun p => p.id = s.currentTurnPlayerId) with
        | some p => p.isBot
        | none => false) with hb0
      have hstep : drawTile r s = addLog
          ("Player drawn a "
            ++ (if (b0 && tile.isJoker) = true
                then { tile with ownerId := some s.currentTurnPlayerId, sortValue := r }
                else { tile with ownerId := some s.currentTurnPlayerId } : Tile).color.str
            ++ " tile.")
          { s with
            pool := s.pool.dropLast,
            drawnTile := some (if (b0 && tile.isJoker) = true
              then { tile with ownerId := some s.currentTurnPlayerId, sortValue := r }
              else { tile with ownerId := some s.currentTurnPlayerId }),
            phase := GamePhase.GUESS } := by
        unfold drawTile
        rw [if_pos hph, hlast]
      by_cases hbj : (b0 && tile.isJoker) = true
      · have hstep2 : drawTile r s = addLog
            ("Player drawn a "
              ++ ({ tile with
                    ownerId := some s.currentTurnPlayerId,
                    sortValue := r } : Tile).color.str ++ " tile.")
            { s with
              pool := l',
              drawnTile := some { tile with
                ownerId := some s.currentTurnPlayerId,
                sortValue := r },
              phase := GamePhase.GUESS } := by
          rw [hstep, if_pos hbj, hdrop]
        exact ⟨_, l', tile,
          { tile with ownerId := some s.currentTurnPlayerId, sortValue := r },
          hph, hl', rfl, rfl, rfl, rfl,
          Or.inr ((Bool.and_eq_true _ _ ▸ hbj).2), hstep2⟩
      · have hstep2 : drawTile r s = addLog
            ("Player drawn a "
              ++ ({ tile with ownerId := some s.currentTurnPlayerId } : Tile).color.str
              ++ " tile.")
            { s with
              pool := l',
              drawnTile := some { tile with ownerId := some s.currentTurnPlayerId },
              phase := GamePhase.GUESS } := by
          rw [hstep, if_neg hbj, hdrop]
        exact ⟨_, l', tile, { tile with ownerId := some s.currentTurnPlayerId },
          hph, hl', rfl, rfl, rfl, rfl, Or.inl rfl, hstep2⟩
  · left
    unfold drawTile
    rw [if_neg hph]

theorem stepSound_drawTile (r : Rat) {s : GameState} (h : Inv s) :
    StepSound s (drawTile r s) := by
  obtain ⟨hnd, helim, hcur, hwin, hdrawn, hpool, hsort, htids⟩ := h
  rcases drawTile_cases r s with heq | ⟨m, heq⟩ |
    ⟨m, l', tile, t2, hph, hpooleq, hid, hplaced, hval, hjok, hsv, heq⟩
  · rw [heq]
    exact stepSound_self ⟨hnd, helim, hcur, hwin, hdrawn, hpool, hsort, htids⟩
  · rw [heq]
    exact ⟨⟨hnd, helim, hcur, hwin, drawnInv_of_ne (fun hph => nomatch hph), hpool, hsort, htids⟩,
      fun h1 hne => absurd h1 hne, fun t ht hp => ⟨t, ht, rfl, rfl, hp⟩⟩
  · have hdno : s.drawnTile = none := hdrawn hph
    rw [heq]
    have htiles2 : tilesOf
        (addLog m { s with pool := l', drawnTile := some t2, phase := GamePhase.GUESS })
        = (l' ++ [t2]) ++ s.players.flatMap Player.hand := rfl
    have htiles1 : tilesOf s = ((l' ++ [tile]) ++ []) ++ s.players.flatMap Player.hand := by
      unfold tilesOf
      rw [hpooleq, hdno]
      rfl
    refine ⟨⟨hnd, helim, hcur, hwin, drawnInv_of_ne (fun hph => nomatch hph), ?_, ?_, ?_⟩,
      fun h1 hne => absurd h1 hne, ?_⟩
    · intro t ht
      exact hpool t (by rw [hpooleq]; exact List.mem_append_left _ ht)
    · intro t ht hj
      rw [htiles2] at ht
      rcases List.mem_append.1 ht with ht1 | ht2
      · rcases List.mem_append.1 ht1 with htl | htt
        · exact hsort t
            (mem_tilesOf_of_pool (by rw [hpooleq]; exact List.mem_append_left _ htl)) hj
        · have hteq : t = t2 := List.mem_singleton.1 htt
          subst hteq
          rcases hsv with hsv1 | hsv2
          · have htilemem : tile ∈ s.pool := by
              rw [hpooleq]
              exact List.mem_append_right _ (List.mem_singleton.2 rfl)
            have hts := hsort tile (mem_tilesOf_of_pool htilemem) (by rw [← hjok]; exact hj)
            rw [hsv1, hts, hval]
          · rw [hj] at hsv2
            exact Bool.noConfusion hsv2
      · obtain ⟨p, hp, htp⟩ := List.mem_flatMap.1 ht2
        exact hsort t (mem_tilesOf_of_hand hp htp) hj
    · unfold TileIdsInv
      rw [htiles2]
      unfold TileIdsInv at htids
      rw [htiles1] at htids
      simp only [List.map_append, List.append_nil, List.map_cons, List.map_nil] at htids ⊢
      rw [hid]
      exact htids
    · intro t ht hp
      rw [htiles1] at ht
      rcases List.mem_append.1 ht with ht1 | ht2
      · exfalso
        have htpool : t ∈ s.pool := by
          rw [hpooleq]
          simpa using ht1
        rw [hpool t htpool] at hp
        exact Bool.noConfusion hp
      · refine ⟨t, ?_, rfl, rfl, hp⟩
        rw [htiles2]
        exact List.mem_append_right _ ht2

theorem mem_tilesOf_of_flatMap {s : GameState} {t : Tile}
    (ht : t ∈ s.players.flatMap Player.hand) : t ∈ tilesOf s :=
  List.mem_append.2 (Or.inr ht)

theorem set_hand_ids_perm {ps : List Player} {i : Nat} {cp : Player} (cp' : Player)
    (xid : String) (h : ps.get? i = some cp)
    (hperm : (cp'.hand.map Tile.id).Perm (cp.hand.map Tile.id ++ [xid])) :
    (((ps.set i cp').flatMap Player.hand).map Tile.id).Perm
      ((ps.flatMap Player.hand).map Tile.id ++ [xid]) := by
  obtain ⟨l1, l2, h1, h2⟩ := flatMap_hand_set ps i cp cp' h
  rw [h1, h2]
  rw [← Multiset.coe_eq_coe]
  have hc : ((cp'.hand.map Tile.id : List String) : Multiset String)
      = ((cp.hand.map Tile.id : List String) : Multiset String) + ↑[xid] := by
    rw [Multiset.coe_add]
    exact Multiset.coe_eq_coe.2 hperm
  simp only [List.map_append, ← Multiset.coe_add]
  rw [hc]
  abel

theorem stepSound_continueTurn {s : GameState} (h : Inv s) : StepSound s (continueTurn s) := by
  obtain ⟨hnd, helim, hcur, hwin, hdrawn, hpool, hsort, htids⟩ := h
  unfold continueTurn
  by_cases hph : s.phase = GamePhase.RESOLVE
  · rw [if_pos hph]
    exact ⟨⟨hnd, helim, hcur, hwin, drawnInv_of_ne (fun hph => nomatch hph), hpool, hsort, htids⟩,
      fun h1 hne => absurd h1 hne, fun t ht hp => ⟨t, ht, rfl, rfl, hp⟩⟩
  · rw [if_neg hph]
    exact stepSound_self ⟨hnd, helim, hcur, hwin, hdrawn, hpool, hsort, htids⟩

theorem stepSound_endTurn {b : Bool} {s s' : GameState} (hInv : Inv s)
    (h : endTurn b s = some s') : StepSound s s' := by
  obtain ⟨hnd, helim, hcur, hwin, hdrawn, hpool, hsort, htids⟩ := hInv
  obtain ⟨NP, j, np, hm, hna, hget, rfl⟩ := endTurn_some_inv h
  obtain ⟨p0, hp0, hp0e⟩ := nextActiveIdx_active hna
  have hnpe : np.isEliminated = false := by
    rw [hget] at hp0
    cases Option.some.inj hp0
    exact hp0e
  rcases mergeDrawn_cases b s with ⟨hdno, hm2⟩ | ⟨dt, hdt, hrest⟩
  · rw [hm2] at hm
    have hNPeq : NP = s.players := (Option.some.inj hm).symm
    subst hNPeq
    have htEq : tilesOf
        { players := s.players, currentTurnPlayerId := np.id, drawnTile := none,
          pool := s.pool, phase := GamePhase.DRAW, winnerId := s.winnerId,
          turnLog := s.turnLog, moveNumber := s.moveNumber + 1 } = tilesOf s := by
      unfold tilesOf
      rw [hdno]
    refine ⟨⟨hnd, helim, ⟨np, List.get?_mem hget, rfl, hnpe⟩, hwin, fun _ => rfl, hpool,
      ?_, ?_⟩, fun h1 hne => absurd h1 hne, ?_⟩
    · intro t ht hj
      exact hsort t (htEq ▸ ht) hj
    · unfold TileIdsInv
      rw [htEq]
      exact htids
    · intro t ht hp
      refine ⟨t, ?_, rfl, rfl, hp⟩
      rw [htEq]
      exact ht
  · rcases hrest with ⟨i, cp, hidx, hcp, hm2⟩ | hm2
    · rw [hm2] at hm
      set X : Tile := if b then dt else { dt with isRevealed := true } with hX
      have hXfields : X.id = dt.id ∧ X.sortValue = dt.sortValue ∧ X.value = dt.value ∧
          X.isJoker = dt.isJoker ∧ X.isPlaced = dt.isPlaced := by
        rw [hX]
        cases b <;> exact ⟨rfl, rfl, rfl, rfl, rfl⟩
      set cp' : Player := { cp with hand := sortHand (cp.hand ++ [X]) } with hcp'
      have hNPeq : NP = s.players.set i cp' := (Option.some.inj hm).symm
      subst hNPeq
      obtain ⟨l1, l2, hh1, hh2⟩ := flatMap_hand_set s.players i cp cp' hcp
      have hcnt : countActive (s.players.set i cp') = countActive s.players :=
        countActive_set s.players i cp cp' hcp rfl
      have e1 : tilesOf
          { players := s.players.set i cp', currentTurnPlayerId := np.id, drawnTile := none,
            pool := s.pool, phase := GamePhase.DRAW, winnerId := s.winnerId,
            turnLog := s.turnLog, moveNumber := s.moveNumber + 1 }
          = (s.pool ++ []) ++ (s.players.set i cp').flatMap Player.hand := rfl
      have e2 : tilesOf s = (s.pool ++ [dt]) ++ s.players.flatMap Player.hand := by
        unfold tilesOf
        rw [hdt]
        rfl
      have hmemX : X ∈ cp'.hand := by
        rw [hcp']
        exact mem_sortHand_append (Or.inr rfl)
      have hmemCp : ∀ t ∈ cp.hand, t ∈ cp'.hand := by
        intro t ht
        rw [hcp']
        exact mem_sortHand_append (Or.inl ht)
      refine ⟨⟨?_, ?_, ⟨np, List.get?_mem hget, rfl, hnpe⟩, ?_, fun _ => rfl, hpool,
        ?_, ?_⟩, ?_, ?_⟩
      · -- NodupIds
        unfold NodupIds
        show ((s.players.set i cp').map Player.id).Nodup
        rw [@map_id_set s.players i cp cp' hcp rfl]
        exact hnd
      · -- ElimInv
        intro p' hp' hall
        rcases List.mem_or_eq_of_mem_set hp' with hmem | rfl
        · exact helim p' hmem hall
        · show cp.isEliminated = true
          apply helim cp (List.get?_mem hcp)
          intro t htc
          exact hall t (hmemCp t htc)
      · -- WinnerInv
        unfold WinnerInv
        show _ ↔ countActive (s.players.set i cp') = 1
        rw [hcnt]
        exact hwin
      · -- SortKeyInv
        intro t ht hj
        rw [e1] at ht
        rcases List.mem_append.1 ht with ht1 | ht2
        · exact hsort t (mem_tilesOf_of_pool (by simpa using ht1)) hj
        · rw [hh2] at ht2
          rcases List.mem_append.1 ht2 with ht3 | ht4
          · refine hsort t (mem_tilesOf_of_flatMap ?_) hj
            rw [hh1]
            exact List.mem_append_left _ ht3
          · rcases List.mem_append.1 ht4 with ht5 | ht6
            · have ht5' : t ∈ cp.hand ++ [X] := by
                rw [hcp'] at ht5
                exact (mem_sortHand _).1 ht5
              rcases List.mem_append.1 ht5' with ht7 | ht8
              · refine hsort t (mem_tilesOf_of_flatMap ?_) hj
                rw [hh1]
                exact List.mem_append_right _ (List.mem_append_left _ ht7)
              · have hteq : t = X := List.mem_singleton.1 ht8
                subst hteq
                have hdj : dt.isJoker = false := by
                  rw [← hXfields.2.2.2.1]
                  exact hj
                have hds := hsort dt (mem_tilesOf_of_drawn hdt) hdj
                rw [hXfields.2.1, hds, hXfields.2.2.1]
            · refine hsort t (mem_tilesOf_of_flatMap ?_) hj
              rw [hh1]
              exact List.mem_append_right _ (List.mem_append_right _ ht6)
      · -- TileIdsInv
        have hperm0 : (cp'.hand.map Tile.id).Perm (cp.hand.map Tile.id ++ [dt.id]) := by
          have h1 : (cp'.hand.map Tile.id).Perm ((cp.hand ++ [X]).map Tile.id) := by
            rw [hcp']
            exact (sortHand_perm _).map Tile.id
          rw [List.map_append, List.map_cons, List.map_nil, hXfields.1] at h1
          exact h1
        have hperm := set_hand_ids_perm cp' dt.id hcp hperm0
        unfold TileIdsInv at htids ⊢
        refine nodup_of_coe_eq ?_ htids
        rw [e1, e2]
        have hc : (((s.players.set i cp').flatMap Player.hand).map Tile.id : Multiset String)
            = ((s.players.flatMap Player.hand).map Tile.id : Multiset String) + ↑[dt.id] := by
          rw [Multiset.coe_add]
          exact Multiset.coe_eq_coe.2 hperm
        simp only [List.map_append, List.map_cons, List.map_nil, ← Multiset.coe_add]
        rw [hc, Multiset.coe_nil]
        abel
      · -- count preserved
        intro h1 hne
        exfalso
        apply hne
        rw [← hcnt]
        exact h1
      · -- PlacedPersist
        intro t ht hp
        rw [e2] at ht
        rcases List.mem_append.1 ht with ht1 | ht2
        · rcases List.mem_append.1 ht1 with ht3 | ht4
          · refine ⟨t, ?_, rfl, rfl, hp⟩
            rw [e1]
            exact List.mem_append_left _ (List.mem_append_left _ ht3)
          · -- t = dt, the drawn tile: it survives as X in the merged hand
            have hteq : t = dt := List.mem_singleton.1 ht4
            subst hteq
            refine ⟨X, ?_, hXfields.1, hXfields.2.1, ?_⟩
            · rw [e1]
              refine List.mem_append_right _ ?_
              rw [hh2]
              exact List.mem_append_right _ (List.mem_append_left _ hmemX)
            · rw [hXfields.2.2.2.2]
              exact hp
        · refine ⟨t, ?_, rfl, rfl, hp⟩
          rw [e1]
          refine List.mem_append_right _ ?_
          rw [hh1] at ht2
          rw [hh2]
          rcases List.mem_append.1 ht2 with ht3 | ht4
          · exact List.mem_append_left _ ht3
          · rcases List.mem_append.1 ht4 with ht5 | ht6
            · exact List.mem_append_right _ (List.mem_append_left _ (hmemCp t ht5))
            · exact List.mem_append_right _ (List.mem_append_right _ ht6)
    · rw [hm2] at hm
      exact Option.noConfusion hm

theorem if_addLog_fields (b : Bool) (m : String) (s : GameState) :
    (if b then addLog m s else s).players = s.players ∧
    (if b then addLog m s else s).currentTurnPlayerId = s.currentTurnPlayerId ∧
    (if b then addLog m s else s).drawnTile = s.drawnTile ∧
    (if b then addLog m s else s).pool = s.pool ∧
    (if b then addLog m s else s).winnerId = s.winnerId := by
  cases b <;> exact ⟨rfl, rfl, rfl, rfl, rfl⟩

/-- Unfolding of a validated wrong guess: the source delegates entirely to
`endTurn(false)` (the queued log entry being overwritten by its whole-state
write). -/
theorem guess_wrong_eq (s : GameState) (pid : String) (i : Nat) (v : Int)
    (tp : Player) (tt : Tile)
    (hph : s.phase = GamePhase.GUESS)
    (hfind : s.players.find? (fun p => p.id = pid) = some tp)
    (helim : tp.isEliminated = false)
    (hself : tp.id ≠ s.currentTurnPlayerId)
    (hget : tp.hand.get? i = some tt)
    (hrev : tt.isRevealed = false)
    (hval : tt.value ≠ v) :
    guess pid (i : Int) v s = endTurn false s := by
  have hg : guess pid (i : Int) v s = submitGuess pid (i : Int) v s := by
    unfold guess
    rw [if_pos hph]
    simp only [hfind, helim, Bool.false_eq_true, if_false, getInt?_ofNat, hget, hrev]
    rw [if_neg hself]
  rw [hg]
  unfold submitGuess
  simp only [hfind, getInt?_ofNat, hget]
  rw [if_neg hval]

/-- Soundness of the reveal-eliminate-checkWinner tail shared by the correct
human guess: the post-state is described through its projections. -/
theorem stepSound_guessCorrect {s s3 : GameState} {pid : String} {tp : Player}
    {NPf : List Player} (i : Nat) (hInv : Inv s)
    (hfind : s.players.find? (fun p => p.id = pid) = some tp)
    (helim : tp.isEliminated = false)
    (hself : tp.id ≠ s.currentTurnPlayerId)
    (hNPf : NPf = if allRevealedAfter pid (revealPlayers pid i s.players)
      then elimPlayers pid (revealPlayers pid i s.players)
      else revealPlayers pid i s.players)
    (h3p : s3.players = NPf) (h3c : s3.currentTurnPlayerId = s.currentTurnPlayerId)
    (h3d : s3.drawnTile = s.drawnTile) (h3pool : s3.pool = s.pool)
    (h3w : s3.winnerId = s.winnerId) (h3ph : s3.phase = GamePhase.RESOLVE) :
    StepSound s (checkWinner NPf s3) := by
  obtain ⟨hnd, helimI, hcur, hwin, hdrawn, hpool, hsort, htids⟩ := hInv
  have htppid : tp.id = pid := by simpa using List.find?_some hfind
  have htpm : tp ∈ s.players := List.mem_of_find?_eq_some hfind
  obtain ⟨pc, hpcm, hpcid, hpce⟩ := hcur
  have hpcne : pc.id ≠ pid := fun he => hself (by rw [htppid, ← he, hpcid])
  have hcount2 : 2 ≤ countActive s.players :=
    two_le_countActive htpm hpcm (fun he => hself (he.trans hpcid)) helim hpce
  have hwnone : s.winnerId = none := by
    cases hw : s.winnerId with
    | none => rfl
    | some w =>
      have h1 : countActive s.players = 1 := hwin.1 (by rw [hw]; rfl)
      omega
  have helim' : ∀ p' ∈ NPf, (∀ t ∈ p'.hand, t.isRevealed = true) →
      p'.isEliminated = true := by
    rw [hNPf]
    exact elimUpdate_elimInv hnd hfind helimI
  have hids : NPf.map Player.id = s.players.map Player.id := by
    rw [hNPf]
    exact elimUpdate_ids pid i _
  have hhands : (NPf.flatMap Player.hand).map Tile.id
      = (s.players.flatMap Player.hand).map Tile.id := by
    rw [hNPf]
    exact elimUpdate_hand_ids pid i _
  have hpcNPf : pc ∈ NPf := by
    rw [hNPf]
    exact elimUpdate_mem_of_ne hpcm hpcne _
  have htiles : ∀ t' ∈ NPf.flatMap Player.hand, ∃ t ∈ s.players.flatMap Player.hand,
      t'.id = t.id ∧ t'.sortValue = t.sortValue ∧ t'.value = t.value ∧
      t'.isJoker = t.isJoker ∧ t'.isPlaced = t.isPlaced := by
    rw [hNPf]
    exact elimUpdate_tiles pid i _
  have htilesF : ∀ t ∈ s.players.flatMap Player.hand, ∃ t' ∈ NPf.flatMap Player.hand,
      t'.id = t.id ∧ t'.sortValue = t.sortValue ∧ t'.value = t.value ∧
      t'.isJoker = t.isJoker ∧ t'.isPlaced = t.isPlaced := by
    rw [hNPf]
    exact elimUpdate_tiles_fwd pid i _
  have h0t : tilesOf s = (s.pool ++ s.drawnTile.toList) ++ s.players.flatMap Player.hand :=
    rfl
  have h3t : tilesOf s3 = (s.pool ++ s.drawnTile.toList) ++ NPf.flatMap Player.hand := by
    unfold tilesOf
    rw [h3p, h3d, h3pool]
  have hsort3 : ∀ t ∈ (s.pool ++ s.drawnTile.toList) ++ NPf.flatMap Player.hand,
      t.isJoker = false → t.sortValue = (t.value : Rat) := by
    intro t ht hj
    rcases List.mem_append.1 ht with ht1 | ht2
    · exact hsort t (by rw [h0t]; exact List.mem_append_left _ ht1) hj
    · obtain ⟨t0, ht0, hid0, hsv0, hv0, hjk0, hpl0⟩ := htiles t ht2
      have hs0 := hsort t0 (by rw [h0t]; exact List.mem_append_right _ ht0)
        (by rw [← hjk0]; exact hj)
      rw [hsv0, hs0, hv0]
  have htids3 : (((s.pool ++ s.drawnTile.toList) ++ NPf.flatMap Player.hand).map
      Tile.id).Nodup := by
    have he : (((s.pool ++ s.drawnTile.toList) ++ NPf.flatMap Player.hand).map Tile.id)
        = (((s.pool ++ s.drawnTile.toList) ++ s.players.flatMap Player.hand).map Tile.id) := by
      simp only [List.map_append]
      rw [hhands]
    rw [he]
    exact htids
  have hpers3 : ∀ t ∈ tilesOf s, t.isPlaced = true →
      ∃ t' ∈ (s.pool ++ s.drawnTile.toList) ++ NPf.flatMap Player.hand,
        t'.id = t.id ∧ t'.sortValue = t.sortValue ∧ t'.isPlaced = true := by
    intro t ht hp
    rw [h0t] at ht
    rcases List.mem_append.1 ht with ht1 | ht2
    · exact ⟨t, List.mem_append_left _ ht1, rfl, rfl, hp⟩
    · obtain ⟨t', ht', hid', hsv', hv', hjk', hpl'⟩ := htilesF t ht2
      exact ⟨t', List.mem_append_right _ ht', hid', hsv', by rw [hpl']; exact hp⟩
  rcases checkWinner_eq NPf s3 with ⟨a, hca, hcf, hcw⟩ | ⟨hcne, hcw⟩ <;> rw [hcw]
  · refine ⟨⟨?_, ?_, ?_, ?_, ?_, ?_, ?_, ?_⟩, fun _ _ => rfl, ?_⟩
    · show (s3.players.map Player.id).Nodup
      rw [h3p, hids]
      exact hnd
    · intro p' hp' hall
      have hp2 : p' ∈ s3.players := hp'
      rw [h3p] at hp2
      exact helim' p' hp2 hall
    · refine ⟨pc, ?_, ?_, hpce⟩
      · show pc ∈ s3.players
        rw [h3p]
        exact hpcNPf
      · show pc.id = s3.currentTurnPlayerId
        rw [h3c]
        exact hpcid
    · refine ⟨fun _ => ?_, fun _ => rfl⟩
      show countActive s3.players = 1
      rw [h3p]
      exact hca
    · intro hph'
      exact nomatch hph'
    · intro t ht
      have ht2 : t ∈ s3.pool := ht
      rw [h3pool] at ht2
      exact hpool t ht2
    · intro t ht hj
      have ht2 : t ∈ tilesOf s3 := ht
      rw [h3t] at ht2
      exact hsort3 t ht2 hj
    · show (((tilesOf s3).map Tile.id)).Nodup
      rw [h3t]
      exact htids3
    · intro t ht hp
      obtain ⟨t', ht', hid', hsv', hpl'⟩ := hpers3 t ht hp
      refine ⟨t', ?_, hid', hsv', hpl'⟩
      show t' ∈ tilesOf s3
      rw [h3t]
      exact ht'
  · refine ⟨⟨?_, ?_, ?_, ?_, ?_, ?_, ?_, ?_⟩, ?_, ?_⟩
    · show (s3.players.map Player.id).Nodup
      rw [h3p, hids]
      exact hnd
    · intro p' hp' hall
      have hp2 : p' ∈ s3.players := hp'
      rw [h3p] at hp2
      exact helim' p' hp2 hall
    · refine ⟨pc, ?_, ?_, hpce⟩
      · show pc ∈ s3.players
        rw [h3p]
        exact hpcNPf
      · show pc.id = s3.currentTurnPlayerId
        rw [h3c]
        exact hpcid
    · show s3.winnerId.isSome = true ↔ countActive s3.players = 1
      rw [h3w, hwnone, h3p]
      exact ⟨fun hs => (nomatch hs), fun hc => absurd hc hcne⟩
    · intro hph'
      rw [h3ph] at hph'
      exact nomatch hph'
    · intro t ht
      have ht2 : t ∈ s3.pool := ht
      rw [h3pool] at ht2
      exact hpool t ht2
    · intro t ht hj
      have ht2 : t ∈ tilesOf s3 := ht
      rw [h3t] at ht2
      exact hsort3 t ht2 hj
    · show (((tilesOf s3).map Tile.id)).Nodup
      rw [h3t]
      exact htids3
    · intro h1 hne
      exfalso
      have h2 : countActive s3.players = 1 := h1
      rw [h3p] at h2
      exact hcne h2
    · intro t ht hp
      obtain ⟨t', ht', hid', hsv', hpl'⟩ := hpers3 t ht hp
      refine ⟨t', ?_, hid', hsv', hpl'⟩
      show t' ∈ tilesOf s3
      rw [h3t]
      exact ht'

theorem stepSound_guess {s s' : GameState} (pid : String) (iv v : Int) (hInv : Inv s)
    (h : guess pid iv v s = some s') : StepSound s s' := by
  by_cases hph : s.phase = GamePhase.GUESS
  · cases hfind : s.players.find? (fun p => p.id = pid) with
    | none =>
      have hq : guess pid iv v s = some s := by
        unfold guess
        rw [if_pos hph]
        simp only [hfind]
      rw [hq] at h
      cases Option.some.inj h
      exact stepSound_self hInv
    | some tp =>
      by_cases helimT : tp.isEliminated = true
      · have hq : guess pid iv v s = some s := by
          unfold guess
          rw [if_pos hph]
          simp only [hfind, helimT, eq_self_iff_true, if_true]
        rw [hq] at h
        cases Option.some.inj h
        exact stepSound_self hInv
      · by_cases hselfT : tp.id = s.currentTurnPlayerId
        · have hq : guess pid iv v s = some s := by
            unfold guess
            rw [if_pos hph]
            simp only [hfind]
            rw [if_neg helimT, if_pos hselfT]
          rw [hq] at h
          cases Option.some.inj h
          exact stepSound_self hInv
        · cases hget : getInt? tp.hand iv with
          | none =>
            have hq : guess pid iv v s = none := by
              unfold guess
              rw [if_pos hph]
              simp only [hfind]
              rw [if_neg helimT, if_neg hselfT]
              simp only [hget]
            rw [hq] at h
            exact Option.noConfusion h
          | some tt =>
            by_cases hrevT : tt.isRevealed = true
            · have hq : guess pid iv v s = some s := by
                unfold guess
                rw [if_pos hph]
                simp only [hfind]
                rw [if_neg helimT, if_neg hselfT]
                simp only [hget, hrevT, eq_self_iff_true, if_true]
              rw [hq] at h
              cases Option.some.inj h
              exact stepSound_self hInv
            · have hivnn : ¬ iv < 0 := by
                intro hlt
                unfold getInt? at hget
                rw [if_pos hlt] at hget
                exact Option.noConfusion hget
              have hivEq : ((iv.toNat : Nat) : Int) = iv := Int.toNat_of_nonneg (by omega)
              have hget' : tp.hand.get? iv.toNat = some tt := by
                unfold getInt? at hget
                rw [if_neg hivnn] at hget
                exact hget
              have helimF : tp.isEliminated = false := by simpa using helimT
              have hrevF : tt.isRevealed = false := by simpa using hrevT
              by_cases hval : tt.value = v
              · have hgc := guess_correct_eq s pid iv.toNat v tp tt hph hfind helimF
                  hselfT hget' hrevF hval
                rw [hivEq] at hgc
                rw [hgc] at h
                cases Option.some.inj h
                exact stepSound_guessCorrect iv.toNat hInv hfind helimF hselfT rfl rfl
                  (if_addLog_fields _ _ s).2.1 (if_addLog_fields _ _ s).2.2.1
                  (if_addLog_fields _ _ s).2.2.2.1 (if_addLog_fields _ _ s).2.2.2.2 rfl
              · have hgw := guess_wrong_eq s pid iv.toNat v tp tt hph hfind helimF
                  hselfT hget' hrevF hval
                rw [hivEq] at hgw
                rw [hgw] at h
                exact stepSound_endTurn hInv h
  · have hq : guess pid iv v s = some s := by
      unfold guess
      rw [if_neg hph]
    rw [hq] at h
    cases Option.some.inj h
    exact stepSound_self hInv

theorem stepSound_drop_drawn {s : GameState} {dt0 : Tile} (nsv : Rat) (hInv : Inv s)
    (hdto : s.drawnTile = some dt0)
    (hjok : dt0.isJoker = true) (hpl : dt0.isPlaced = false) :
    StepSound s
      { s with drawnTile := some { dt0 with sortValue := nsv, isPlaced := true } } := by
  obtain ⟨hnd, helim, hcur, hwin, hdrawn, hpool, hsort, htids⟩ := hInv
  have e1 : tilesOf { s with drawnTile := some { dt0 with sortValue := nsv, isPlaced := true } }
      = (s.pool ++ [{ dt0 with sortValue := nsv, isPlaced := true }])
        ++ s.players.flatMap Player.hand := rfl
  have e0 : tilesOf s = (s.pool ++ [dt0]) ++ s.players.flatMap Player.hand := by
    unfold tilesOf
    rw [hdto]
    rfl
  refine ⟨⟨hnd, helim, hcur, hwin, ?_, hpool, ?_, ?_⟩, fun h1 hne => absurd h1 hne, ?_⟩
  · intro hph
    have hph2 : s.phase = GamePhase.DRAW := hph
    have hnone := hdrawn hph2
    rw [hdto] at hnone
    exact Option.noConfusion hnone
  · intro t ht hj
    have ht2 : t ∈ (s.pool ++ [{ dt0 with sortValue := nsv, isPlaced := true }])
        ++ s.players.flatMap Player.hand := ht
    rcases List.mem_append.1 ht2 with ht3 | ht4
    · rcases List.mem_append.1 ht3 with ht5 | ht6
      · exact hsort t (mem_tilesOf_of_pool ht5) hj
      · exfalso
        have hteq : t = { dt0 with sortValue := nsv, isPlaced := true } :=
          List.mem_singleton.1 ht6
        rw [hteq] at hj
        have hj2 : dt0.isJoker = false := hj
        rw [hjok] at hj2
        exact Bool.noConfusion hj2
    · exact hsort t (mem_tilesOf_of_flatMap ht4) hj
  · show ((tilesOf { s with
        drawnTile := some { dt0 with sortValue := nsv, isPlaced := true } }).map
        Tile.id).Nodup
    have he : (tilesOf { s with
          drawnTile := some { dt0 with sortValue := nsv, isPlaced := true } }).map Tile.id
        = (tilesOf s).map Tile.id := by
      rw [e1, e0]
      simp only [List.map_append, List.map_cons, List.map_nil]
    rw [he]
    exact htids
  · intro t ht hp
    rw [e0] at ht
    rcases List.mem_append.1 ht with ht1 | ht2
    · rcases List.mem_append.1 ht1 with ht3 | ht4
      · refine ⟨t, ?_, rfl, rfl, hp⟩
        rw [e1]
        exact List.mem_append_left _ (List.mem_append_left _ ht3)
      · exfalso
        have hteq : t = dt0 := List.mem_singleton.1 ht4
        rw [hteq, hpl] at hp
        exact Bool.noConfusion hp
    · refine ⟨t, ?_, rfl, rfl, hp⟩
      rw [e1]
      exact List.mem_append_right _ ht2

theorem stepSound_drop_hand {s : GameState} {cp : Player} {dobj : Tile} {d : String}
    (nsv : Rat) (hInv : Inv s)
    (hfind : s.players.find? (fun p => p.id = s.currentTurnPlayerId) = some cp)
    (hmem : dobj ∈ cp.hand) (hdid : dobj.id = d)
    (hjok : dobj.isJoker = true) (hpl : dobj.isPlaced = false) :
    StepSound s
      { s with players := s.players.map (fun p => if p.id = cp.id
          then { p with hand := sortHand (cp.hand.map (fun tl =>
            if tl.id = d then { tl with sortValue := nsv, isPlaced := true } else tl)) }
          else p) } := by
  obtain ⟨hnd, helim, hcur, hwin, hdrawn, hpool, hsort, htids⟩ := hInv
  have hcpm : cp ∈ s.players := List.mem_of_find?_eq_some hfind
  set g : Tile → Tile := fun tl =>
    if tl.id = d then { tl with sortValue := nsv, isPlaced := true } else tl with hg
  set F : Player → Player := fun p => if p.id = cp.id
    then { p with hand := sortHand (cp.hand.map g) } else p with hF
  have hgid : ∀ tl, (g tl).id = tl.id := by
    intro tl
    rw [hg]
    dsimp only
    split <;> rfl
  have hgrev : ∀ tl, (g tl).isRevealed = tl.isRevealed := by
    intro tl
    rw [hg]
    dsimp only
    split <;> rfl
  have hFid : ∀ p, (F p).id = p.id := by
    intro p
    rw [hF]
    dsimp only
    split <;> rfl
  have hFflag : ∀ p, (F p).isEliminated = p.isEliminated := by
    intro p
    rw [hF]
    dsimp only
    split <;> rfl
  have hcnt : countActive (s.players.map F) = countActive s.players :=
    countActive_map F hFflag s.players
  have hpids : (s.players.map F).map Player.id = s.players.map Player.id := by
    rw [List.map_map]
    refine List.map_congr_left ?_
    intro p _
    exact hFid p
  have hFcp : ∀ p ∈ s.players, p.id = cp.id →
      F p = { cp with hand := sortHand (cp.hand.map g) } := by
    intro p hp hpid
    have hpeq : p = cp := nodup_players_eq hnd hp hcpm hpid
    subst hpeq
    rw [hF]
    dsimp only
    rw [if_pos hpid]
  have hFne : ∀ p, p.id ≠ cp.id → F p = p := by
    intro p hpid
    rw [hF]
    dsimp only
    rw [if_neg hpid]
  have hgt : ∀ tl ∈ cp.hand, g tl = tl ∨ (tl = dobj ∧
      g tl = { dobj with sortValue := nsv, isPlaced := true }) := by
    intro tl htl
    by_cases hid : tl.id = d
    · right
      have htleq : tl = dobj := tiles_inj htids (mem_tilesOf_of_hand hcpm htl)
        (mem_tilesOf_of_hand hcpm hmem) (by rw [hid, hdid])
      subst htleq
      refine ⟨rfl, ?_⟩
      rw [hg]
      dsimp only
      rw [if_pos hid]
    · left
      rw [hg]
      dsimp only
      rw [if_neg hid]
  have hperm : (((s.players.map F).flatMap Player.hand).map Tile.id).Perm
      ((s.players.flatMap Player.hand).map Tile.id) := by
    refine flatMap_map_ids_perm F s.players ?_
    intro p hp
    by_cases hpid : p.id = cp.id
    · rw [hFcp p hp hpid]
      have hpeq : p = cp := nodup_players_eq hnd hp hcpm hpid
      subst hpeq
      have h1 : ((sortHand (p.hand.map g)).map Tile.id).Perm ((p.hand.map g).map Tile.id) :=
        (sortHand_perm _).map Tile.id
      have h2 : (p.hand.map g).map Tile.id = p.hand.map Tile.id := by
        rw [List.map_map]
        refine List.map_congr_left ?_
        intro tl _
        exact hgid tl
      rw [h2] at h1
      exact h1
    · rw [hFne p hpid]
  have e1 : tilesOf { s with players := s.players.map F }
      = (s.pool ++ s.drawnTile.toList) ++ (s.players.map F).flatMap Player.hand := rfl
  have e0 : tilesOf s = (s.pool ++ s.drawnTile.toList) ++ s.players.flatMap Player.hand :=
    rfl
  have hhands : ∀ t ∈ (s.players.map F).flatMap Player.hand,
      t ∈ s.players.flatMap Player.hand ∨
        (t = { dobj with sortValue := nsv, isPlaced := true }) := by
    intro t ht
    obtain ⟨p', hp', htp⟩ := List.mem_flatMap.1 ht
    obtain ⟨p, hp, hpeq⟩ := List.mem_map.1 hp'
    by_cases hpid : p.id = cp.id
    · rw [hFcp p hp hpid] at hpeq
      subst hpeq
      have ht2 : t ∈ cp.hand.map g := (mem_sortHand _).1 htp
      obtain ⟨tl, htl, htleq⟩ := List.mem_map.1 ht2
      rcases hgt tl htl with hgeq | ⟨htld, hgeq⟩
      · left
        rw [← htleq, hgeq]
        exact List.mem_flatMap.2 ⟨cp, hcpm, htl⟩
      · right
        rw [← htleq, hgeq]
    · rw [hFne p hpid] at hpeq
      subst hpeq
      left
      exact List.mem_flatMap.2 ⟨p, hp, htp⟩
  refine ⟨⟨?_, ?_, ?_, ?_, hdrawn, hpool, ?_, ?_⟩, ?_, ?_⟩
  · show ((s.players.map F).map Player.id).Nodup
    rw [hpids]
    exact hnd
  · -- ElimInv
    intro p' hp' hall
    obtain ⟨p, hp, hpeq⟩ := List.mem_map.1 hp'
    by_cases hpid : p.id = cp.id
    · rw [hFcp p hp hpid] at hpeq
      subst hpeq
      show cp.isEliminated = true
      apply helim cp hcpm
      intro tl htl
      have hgm : g tl ∈ sortHand (cp.hand.map g) :=
        (mem_sortHand _).2 (List.mem_map_of_mem g htl)
      have := hall (g tl) hgm
      rw [hgrev tl] at this
      exact this
    · rw [hFne p hpid] at hpeq
      subst hpeq
      exact helim p hp hall
  · -- CurInv
    obtain ⟨pc, hpcm, hpcid, hpce⟩ := hcur
    refine ⟨F pc, List.mem_map_of_mem F hpcm, ?_, ?_⟩
    · rw [hFid pc]
      exact hpcid
    · rw [hFflag pc]
      exact hpce
  · -- WinnerInv
    show s.winnerId.isSome = true ↔ countActive (s.players.map F) = 1
    rw [hcnt]
    exact hwin
  · -- SortKeyInv
    intro t ht hj
    have ht2 : t ∈ (s.pool ++ s.drawnTile.toList) ++ (s.players.map F).flatMap Player.hand :=
      ht
    rcases List.mem_append.1 ht2 with ht3 | ht4
    · exact hsort t (List.mem_append.2 (Or.inl ht3)) hj
    · rcases hhands t ht4 with ht5 | hteq
      · exact hsort t (mem_tilesOf_of_flatMap ht5) hj
      · exfalso
        rw [hteq] at hj
        have hj2 : dobj.isJoker = false := hj
        rw [hjok] at hj2
        exact Bool.noConfusion hj2
  · -- TileIdsInv
    show ((tilesOf { s with players := s.players.map F }).map Tile.id).Nodup
    rw [e1]
    have hfull : ((((s.pool ++ s.drawnTile.toList)
          ++ (s.players.map F).flatMap Player.hand)).map Tile.id).Perm
        (((s.pool ++ s.drawnTile.toList) ++ s.players.flatMap Player.hand).map Tile.id) := by
      simp only [List.map_append]
      exact List.Perm.append (List.Perm.refl _) hperm
    exact hfull.symm.nodup htids
  · -- count preserved
    intro h1 hne
    exfalso
    apply hne
    rw [← hcnt]
    exact h1
  · -- PlacedPersist
    intro t ht hp
    rw [e0] at ht
    rcases List.mem_append.1 ht with ht1 | ht2
    · refine ⟨t, ?_, rfl, rfl, hp⟩
      rw [e1]
      exact List.mem_append_left _ ht1
    · obtain ⟨p, hp', htp⟩ := List.mem_flatMap.1 ht2
      by_cases hpid : p.id = cp.id
      · have hpeq : p = cp := nodup_players_eq hnd hp' hcpm hpid
        subst hpeq
        by_cases htd : t.id = d
        · exfalso
          have hteq : t = dobj := tiles_inj htids (mem_tilesOf_of_hand hp' htp)
            (mem_tilesOf_of_hand hcpm hmem) (by rw [htd, hdid])
          rw [hteq, hpl] at hp
          exact Bool.noConfusion hp
        · refine ⟨t, ?_, rfl, rfl, hp⟩
          rw [e1]
          refine List.mem_append_right _ ?_
          refine List.mem_flatMap.2 ⟨F p, List.mem_map_of_mem F hp', ?_⟩
          rw [hFcp p hp' hpid]
          show t ∈ sortHand (p.hand.map g)
          refine (mem_sortHand _).2 ?_
          have hgeq : g t = t := by
            rw [hg]
            dsimp only
            rw [if_neg htd]
          rw [← hgeq]
          exact List.mem_map_of_mem g htp
      · refine ⟨t, ?_, rfl, rfl, hp⟩
        rw [e1]
        refine List.mem_append_right _ ?_
        refine List.mem_flatMap.2 ⟨F p, List.mem_map_of_mem F hp', ?_⟩
        rw [hFne p hpid]
        exact htp

theorem stepSound_handleDrop (d tgt : String) {s : GameState} (hInv : Inv s) :
    StepSound s (handleDrop d tgt s) := by
  by_cases hdt : d = tgt
  · have hq : handleDrop d tgt s = s := by
      unfold handleDrop
      rw [if_pos hdt]
    rw [hq]
    exact stepSound_self hInv
  · cases hfind : s.players.find? (fun p => p.id = s.currentTurnPlayerId) with
    | none =>
      have hq : handleDrop d tgt s = s := by
        unfold handleDrop
        rw [if_neg hdt]
        simp only [hfind]
      rw [hq]
      exact stepSound_self hInv
    | some cp =>
      cases hdto : s.drawnTile with
      | none =>
        cases hfobj : cp.hand.find? (fun t => t.id = d) with
        | none =>
          have hq : handleDrop d tgt s = s := by
            unfold handleDrop
            rw [if_neg hdt]
            simp only [hfind, hdto, Option.map_none', Option.getD_none, Bool.false_eq_true,
              if_false, hfobj]
          rw [hq]
          exact stepSound_self hInv
        | some dobj =>
          by_cases hguard : ¬dobj.isJoker ∨ dobj.isPlaced
          · have hq : handleDrop d tgt s = s := by
              unfold handleDrop
              rw [if_neg hdt]
              simp only [hfind, hdto, Option.map_none', Option.getD_none, Bool.false_eq_true,
                if_false, hfobj]
              rw [if_pos hguard]
            rw [hq]
            exact stepSound_self hInv
          · have hjok : dobj.isJoker = true := not_not.1 (not_or.1 hguard).1
            have hpl : dobj.isPlaced = false := by simpa using (not_or.1 hguard).2
            have hmem : dobj ∈ cp.hand := List.mem_of_find?_eq_some hfobj
            have hdid : dobj.id = d := by simpa using List.find?_some hfobj
            unfold handleDrop
            rw [if_neg hdt]
            simp only [hfind, hdto, Option.map_none', Option.getD_none, Bool.false_eq_true,
              if_false, hfobj]
            rw [if_neg hguard]
            rw [show (none : Option Tile) = s.drawnTile from hdto.symm]
            exact stepSound_drop_hand _ hInv hfind hmem hdid hjok hpl
      | some dt0 =>
        by_cases hbeq : (dt0.id == d) = true
        · by_cases hguard : ¬dt0.isJoker ∨ dt0.isPlaced
          · have hq : handleDrop d tgt s = s := by
              unfold handleDrop
              rw [if_neg hdt]
              simp only [hfind, hdto, Option.map_some', Option.getD_some, hbeq,
                eq_self_iff_true, if_true]
              rw [if_pos hguard]
            rw [hq]
            exact stepSound_self hInv
          · have hjok : dt0.isJoker = true := not_not.1 (not_or.1 hguard).1
            have hpl : dt0.isPlaced = false := by simpa using (not_or.1 hguard).2
            unfold handleDrop
            rw [if_neg hdt]
            simp only [hfind, hdto, Option.map_some', Option.getD_some, hbeq,
              eq_self_iff_true, if_true]
            rw [if_neg hguard]
            exact stepSound_drop_drawn _ hInv hdto hjok hpl
        · cases hfobj : cp.hand.find? (fun t => t.id = d) with
          | none =>
            have hq : handleDrop d tgt s = s := by
              unfold handleDrop
              rw [if_neg hdt]
              simp only [hfind, hdto, Option.map_some', Option.getD_some]
              rw [if_neg hbeq, if_neg hbeq]
              simp only [hfobj]
            rw [hq]
            exact stepSound_self hInv
          | some dobj =>
            by_cases hguard : ¬dobj.isJoker ∨ dobj.isPlaced
            · have hq : handleDrop d tgt s = s := by
                unfold handleDrop
                rw [if_neg hdt]
                simp only [hfind, hdto, Option.map_some', Option.getD_some]
                rw [if_neg hbeq, if_neg hbeq]
                simp only [hfobj]
                rw [if_pos hguard]
              rw [hq]
              exact stepSound_self hInv
            · have hjok : dobj.isJoker = true := not_not.1 (not_or.1 hguard).1
              have hpl : dobj.isPlaced = false := by simpa using (not_or.1 hguard).2
              have hmem : dobj ∈ cp.hand := List.mem_of_find?_eq_some hfobj
              have hdid : dobj.id = d := by simpa using List.find?_some hfobj
              unfold handleDrop
              rw [if_neg hdt]
              simp only [hfind, hdto, Option.map_some', Option.getD_some]
              rw [if_neg hbeq, if_neg hbeq]
              simp only [hfobj]
              rw [if_neg hguard]
              rw [show some dt0 = s.drawnTile from hdto.symm]
              exact stepSound_drop_hand _ hInv hfind hmem hdid hjok hpl

theorem getNextPlayerId_some_inv {ps : List Player} {cur nid : String}
    (h : getNextPlayerId ps cur = some nid) :
    ∃ p ∈ ps, p.id = nid ∧ p.isEliminated = false := by
  simp only [getNextPlayerId] at h
  split at h
  · exact Option.noConfusion h
  · cases hna : nextActiveIdx ps
        (((match ps.findIdx? (fun p => p.id = cur) with
           | some i => (i : Int)
           | none => -1) + 1) % (ps.length : Int)).toNat ps.length with
    | none =>
      rw [hna] at h
      exact Option.noConfusion h
    | some j =>
      rw [hna] at h
      simp only [Option.some_bind] at h
      cases hg : ps.get? j with
      | none =>
        rw [hg] at h
        exact Option.noConfusion h
      | some p =>
        rw [hg] at h
        simp only [Option.map_some'] at h
        obtain ⟨p0, hp0, hp0e⟩ := nextActiveIdx_active hna
        rw [hg] at hp0
        cases Option.some.inj hp0
        exact ⟨p, List.get?_mem hg, Option.some.inj h, hp0e⟩

/-- Soundness of the automated agent's correct-guess tail: reveal, possible
elimination, merge of a pending drawn tile, turn advance, `checkWinner`. -/
theorem stepSound_botCorrect {s s3 : GameState} {pid : String} {tp : Player}
    {NPf NP3 : List Player} {nid : String} (ti : Nat) (hInv : Inv s)
    (hfind : s.players.find? (fun p => p.id = pid) = some tp)
    (helim : tp.isEliminated = false)
    (hself : tp.id ≠ s.currentTurnPlayerId)
    (hNPf : NPf = if allRevealedAfter pid (revealPlayers pid ti s.players)
      then elimPlayers pid (revealPlayers pid ti s.players)
      else revealPlayers pid ti s.players)
    (hNP3 : (s.drawnTile = none ∧ NP3 = NPf) ∨
      (∃ dt bi bp, s.drawnTile = some dt ∧
        NPf.findIdx? (fun p => p.id = s.currentTurnPlayerId) = some bi ∧
        NPf.get? bi = some bp ∧
        NP3 = NPf.set bi { bp with hand := sortHand (bp.hand ++ [dt]) }))
    (hnid : getNextPlayerId NP3 s.currentTurnPlayerId = some nid)
    (h3p : s3.players = NP3) (h3c : s3.currentTurnPlayerId = nid)
    (h3d : s3.drawnTile = none) (h3pool : s3.pool = s.pool)
    (h3w : s3.winnerId = s.winnerId) (h3ph : s3.phase = GamePhase.DRAW) :
    StepSound s (checkWinner NP3 s3) := by
  obtain ⟨hnd, helimI, hcur, hwin, hdrawn, hpool, hsort, htids⟩ := hInv
  have htppid : tp.id = pid := by simpa using List.find?_some hfind
  have htpm : tp ∈ s.players := List.mem_of_find?_eq_some hfind
  obtain ⟨pc, hpcm, hpcid, hpce⟩ := hcur
  have hcount2 : 2 ≤ countActive s.players :=
    two_le_countActive htpm hpcm (fun he => hself (he.trans hpcid)) helim hpce
  have hwnone : s.winnerId = none := by
    cases hw : s.winnerId with
    | none => rfl
    | some w =>
      have h1 : countActive s.players = 1 := hwin.1 (by rw [hw]; rfl)
      omega
  have helim' : ∀ p' ∈ NPf, (∀ t ∈ p'.hand, t.isRevealed = true) →
      p'.isEliminated = true := by
    rw [hNPf]
    exact elimUpdate_elimInv hnd hfind helimI
  have hids : NPf.map Player.id = s.players.map Player.id := by
    rw [hNPf]
    exact elimUpdate_ids pid ti _
  have hhands : (NPf.flatMap Player.hand).map Tile.id
      = (s.players.flatMap Player.hand).map Tile.id := by
    rw [hNPf]
    exact elimUpdate_hand_ids pid ti _
  have htiles : ∀ t' ∈ NPf.flatMap Player.hand, ∃ t ∈ s.players.flatMap Player.hand,
      t'.id = t.id ∧ t'.sortValue = t.sortValue ∧ t'.value = t.value ∧
      t'.isJoker = t.isJoker ∧ t'.isPlaced = t.isPlaced := by
    rw [hNPf]
    exact elimUpdate_tiles pid ti _
  have htilesF : ∀ t ∈ s.players.flatMap Player.hand, ∃ t' ∈ NPf.flatMap Player.hand,
      t'.id = t.id ∧ t'.sortValue = t.sortValue ∧ t'.value = t.value ∧
      t'.isJoker = t.isJoker ∧ t'.isPlaced = t.isPlaced := by
    rw [hNPf]
    exact elimUpdate_tiles_fwd pid ti _
  have hcntF : countActive NPf = countActive NP3 ∧
      NP3.map Player.id = NPf.map Player.id ∧
      (∀ u ∈ NPf.flatMap Player.hand, u ∈ NP3.flatMap Player.hand) ∧
      (∀ u ∈ NP3.flatMap Player.hand, u ∈ NPf.flatMap Player.hand ∨
        ∃ dt, s.drawnTile = some dt ∧ u = dt) ∧
      (∀ p' ∈ NP3, (∀ t ∈ p'.hand, t.isRevealed = true) → p'.isEliminated = true) ∧
      (((s.pool ++ []) ++ NP3.flatMap Player.hand).map Tile.id : Multiset String)
        = (((s.pool ++ s.drawnTile.toList) ++ s.players.flatMap Player.hand).map
            Tile.id : Multiset String) := by
    rcases hNP3 with ⟨hdno, hNP3e⟩ | ⟨dt, bi, bp, hdt, hbi, hbp, hNP3e⟩
    · subst hNP3e
      refine ⟨rfl, rfl, fun u hu => hu, fun u hu => Or.inl hu, helim', ?_⟩
      rw [hdno]
      show ((((s.pool ++ []) ++ NP3.flatMap Player.hand).map Tile.id : List String)
        : Multiset String) = _
      congr 1
      simp only [List.map_append]
      rw [hhands]
      rfl
    · subst hNP3e
      obtain ⟨l1, l2, hh1, hh2⟩ := flatMap_hand_set NPf bi bp
        { bp with hand := sortHand (bp.hand ++ [dt]) } hbp
      refine ⟨(countActive_set NPf bi bp { bp with hand := sortHand (bp.hand ++ [dt]) }
          hbp rfl).symm,
        @map_id_set NPf bi bp { bp with hand := sortHand (bp.hand ++ [dt]) } hbp rfl,
        ?_, ?_, ?_, ?_⟩
      · intro u hu
        rw [hh1] at hu
        rw [hh2]
        rcases List.mem_append.1 hu with hu1 | hu2
        · exact List.mem_append_left _ hu1
        · rcases List.mem_append.1 hu2 with hu3 | hu4
          · exact List.mem_append_right _
              (List.mem_append_left _ (mem_sortHand_append (Or.inl hu3)))
          · exact List.mem_append_right _ (List.mem_append_right _ hu4)
      · intro u hu
        rw [hh2] at hu
        rcases List.mem_append.1 hu with hu1 | hu2
        · refine Or.inl ?_
          rw [hh1]
          exact List.mem_append_left _ hu1
        · rcases List.mem_append.1 hu2 with hu3 | hu4
          · have hu5 : u ∈ bp.hand ++ [dt] := (mem_sortHand _).1 hu3
            rcases List.mem_append.1 hu5 with hu6 | hu7
            · refine Or.inl ?_
              rw [hh1]
              exact List.mem_append_right _ (List.mem_append_left _ hu6)
            · exact Or.inr ⟨dt, hdt, List.mem_singleton.1 hu7⟩
          · refine Or.inl ?_
            rw [hh1]
            exact List.mem_append_right _ (List.mem_append_right _ hu4)
      · intro p' hp' hall
        rcases List.mem_or_eq_of_mem_set hp' with hmem | rfl
        · exact helim' p' hmem hall
        · show bp.isEliminated = true
          apply helim' bp (List.get?_mem hbp)
          intro t htb
          exact hall t (mem_sortHand_append (Or.inl htb))
      · have hperm0 : ((sortHand (bp.hand ++ [dt])).map Tile.id).Perm
            (bp.hand.map Tile.id ++ [dt.id]) := by
          have h1 := (sortHand_perm (bp.hand ++ [dt])).map Tile.id
          rw [List.map_append, List.map_cons, List.map_nil] at h1
          exact h1
        have hperm := set_hand_ids_perm { bp with hand := sortHand (bp.hand ++ [dt]) }
          dt.id hbp hperm0
        have hc : (((NPf.set bi { bp with hand := sortHand (bp.hand ++ [dt]) }).flatMap
              Player.hand).map Tile.id : Multiset String)
            = ((NPf.flatMap Player.hand).map Tile.id : Multiset String) + ↑[dt.id] := by
          rw [Multiset.coe_add]
          exact Multiset.coe_eq_coe.2 hperm
        rw [hdt]
        show (((s.pool ++ []) ++ _).map Tile.id : Multiset String) = _
        simp only [List.map_append, List.map_cons, List.map_nil, ← Multiset.coe_add]
        rw [hc, hhands, Multiset.coe_nil]
        abel
  obtain ⟨hcnt3, hids3, hkeep, hback, helim3, hmset⟩ := hcntF
  obtain ⟨pn, hpnm, hpnid, hpne⟩ := getNextPlayerId_some_inv hnid
  have h3t : tilesOf s3 = (s.pool ++ []) ++ NP3.flatMap Player.hand := by
    unfold tilesOf
    rw [h3p, h3d, h3pool]
    rfl
  have h0t : tilesOf s = (s.pool ++ s.drawnTile.toList) ++ s.players.flatMap Player.hand :=
    rfl
  have hsort3 : ∀ t ∈ (s.pool ++ []) ++ NP3.flatMap Player.hand,
      t.isJoker = false → t.sortValue = (t.value : Rat) := by
    intro t ht hj
    rcases List.mem_append.1 ht with ht1 | ht2
    · exact hsort t (mem_tilesOf_of_pool (by simpa using ht1)) hj
    · rcases hback t ht2 with ht3 | ⟨dt, hdt, hteq⟩
      · obtain ⟨t0, ht0, hid0, hsv0, hv0, hjk0, hpl0⟩ := htiles t ht3
        have hs0 := hsort t0 (mem_tilesOf_of_flatMap ht0) (by rw [← hjk0]; exact hj)
        rw [hsv0, hs0, hv0]
      · subst hteq
        exact hsort _ (mem_tilesOf_of_drawn hdt) hj
  have htids3 : (((s.pool ++ []) ++ NP3.flatMap Player.hand).map Tile.id).Nodup := by
    refine nodup_of_coe_eq hmset ?_
    exact htids
  have hpers3 : ∀ t ∈ tilesOf s, t.isPlaced = true →
      ∃ t' ∈ (s.pool ++ []) ++ NP3.flatMap Player.hand,
        t'.id = t.id ∧ t'.sortValue = t.sortValue ∧ t'.isPlaced = true := by
    intro t ht hp
    rw [h0t] at ht
    rcases List.mem_append.1 ht with ht1 | ht2
    · rcases List.mem_append.1 ht1 with ht3 | ht4
      · exact ⟨t, List.mem_append_left _ (List.mem_append_left _ ht3), rfl, rfl, hp⟩
      · -- t is the pending drawn tile: it is merged into the agent's hand
        rcases hNP3 with ⟨hdno, hNP3e⟩ | ⟨dt, bi, bp, hdt, hbi, hbp, hNP3e⟩
        · rw [hdno] at ht4
          cases ht4
        · rw [hdt] at ht4
          have hteq : t = dt := List.mem_singleton.1 ht4
          subst hteq
          refine ⟨t, ?_, rfl, rfl, hp⟩
          refine List.mem_append_right _ ?_
          subst hNP3e
          obtain ⟨l1, l2, hh1, hh2⟩ := flatMap_hand_set NPf bi bp
            { bp with hand := sortHand (bp.hand ++ [t]) } hbp
          rw [hh2]
          exact List.mem_append_right _
            (List.mem_append_left _ (mem_sortHand_append (Or.inr rfl)))
    · obtain ⟨t', ht', hid', hsv', hv', hjk', hpl'⟩ := htilesF t ht2
      exact ⟨t', List.mem_append_right _ (hkeep t' ht'), hid', hsv',
        by rw [hpl']; exact hp⟩
  rcases checkWinner_eq NP3 s3 with ⟨a, hca, hcf, hcw⟩ | ⟨hcne, hcw⟩ <;> rw [hcw]
  · refine ⟨⟨?_, ?_, ?_, ?_, fun _ => h3d, ?_, ?_, ?_⟩, fun _ _ => rfl, ?_⟩
    · show (s3.players.map Player.id).Nodup
      rw [h3p, hids3, hids]
      exact hnd
    · intro p' hp' hall
      have hp2 : p' ∈ s3.players := hp'
      rw [h3p] at hp2
      exact helim3 p' hp2 hall
    · refine ⟨pn, ?_, ?_, hpne⟩
      · show pn ∈ s3.players
        rw [h3p]
        exact hpnm
      · show pn.id = s3.currentTurnPlayerId
        rw [h3c]
        exact hpnid
    · refine ⟨fun _ => ?_, fun _ => rfl⟩
      show countActive s3.players = 1
      rw [h3p]
      exact hca
    · intro t ht
      have ht2 : t ∈ s3.pool := ht
      rw [h3pool] at ht2
      exact hpool t ht2
    · intro t ht hj
      have ht2 : t ∈ tilesOf s3 := ht
      rw [h3t] at ht2
      exact hsort3 t ht2 hj
    · show ((tilesOf s3).map Tile.id).Nodup
      rw [h3t]
      exact htids3
    · intro t ht hp
      obtain ⟨t', ht', hid', hsv', hpl'⟩ := hpers3 t ht hp
      refine ⟨t', ?_, hid', hsv', hpl'⟩
      show t' ∈ tilesOf s3
      rw [h3t]
      exact ht'
  · refine ⟨⟨?_, ?_, ?_, ?_, fun _ => h3d, ?_, ?_, ?_⟩, ?_, ?_⟩
    · show (s3.players.map Player.id).Nodup
      rw [h3p, hids3, hids]
      exact hnd
    · intro p' hp' hall
      have hp2 : p' ∈ s3.players := hp'
      rw [h3p] at hp2
      exact helim3 p' hp2 hall
    · refine ⟨pn, ?_, ?_, hpne⟩
      · show pn ∈ s3.players
        rw [h3p]
        exact hpnm
      · show pn.id = s3.currentTurnPlayerId
        rw [h3c]
        exact hpnid
    · show s3.winnerId.isSome = true ↔ countActive s3.players = 1
      rw [h3w, hwnone, h3p]
      exact ⟨fun hs => (nomatch hs), fun hc => absurd hc hcne⟩
    · intro t ht
      have ht2 : t ∈ s3.pool := ht
      rw [h3pool] at ht2
      exact hpool t ht2
    · intro t ht hj
      have ht2 : t ∈ tilesOf s3 := ht
      rw [h3t] at ht2
      exact hsort3 t ht2 hj
    · show ((tilesOf s3).map Tile.id).Nodup
      rw [h3t]
      exact htids3
    · intro h1 hne
      exfalso
      have h2 : countActive s3.players = 1 := h1
      rw [h3p] at h2
      exact hcne h2
    · intro t ht hp
      obtain ⟨t', ht', hid', hsv', hpl'⟩ := hpers3 t ht hp
      refine ⟨t', ?_, hid', hsv', hpl'⟩
      show t' ∈ tilesOf s3
      rw [h3t]
      exact ht'

theorem stepSound_bot {s s' : GameState} (r : Rat) (pid : String) (ti : Nat) (v : Int)
    (hInv : Inv s) (h : executeBotMove r pid ti v s = some s') : StepSound s s' := by
  by_cases hph : s.phase = GamePhase.DRAW
  · have hq : executeBotMove r pid ti v s = some (drawTile r s) := by
      unfold executeBotMove
      rw [if_pos hph]
    rw [hq] at h
    cases Option.some.inj h
    exact stepSound_drawTile r hInv
  · by_cases hph2 : s.phase = GamePhase.GUESS
    · cases hfind : s.players.find? (fun p => p.id = pid) with
      | none =>
        have hq : executeBotMove r pid ti v s = some s := by
          unfold executeBotMove
          rw [if_neg hph, if_pos hph2]
          simp only [hfind]
        rw [hq] at h
        cases Option.some.inj h
        exact stepSound_self hInv
      | some target =>
        by_cases hguard : target.id = s.currentTurnPlayerId ∨ target.isEliminated = true
        · have hq : executeBotMove r pid ti v s = some s := by
            unfold executeBotMove
            rw [if_neg hph, if_pos hph2]
            simp only [hfind]
            rw [if_pos hguard]
          rw [hq] at h
          cases Option.some.inj h
          exact stepSound_self hInv
        · have hself : target.id ≠ s.currentTurnPlayerId := fun he => hguard (Or.inl he)
          have htelim : target.isEliminated = false := by
            cases hte : target.isEliminated with
            | false => rfl
            | true => exact absurd (Or.inr hte) hguard
          cases hget : target.hand.get? ti with
          | none =>
            have hq : executeBotMove r pid ti v s = some s := by
              unfold executeBotMove
              rw [if_neg hph, if_pos hph2]
              simp only [hfind]
              rw [if_neg hguard]
              simp only [hget]
            rw [hq] at h
            cases Option.some.inj h
            exact stepSound_self hInv
          | some tt =>
            by_cases hrev : tt.isRevealed = true
            · have hq : executeBotMove r pid ti v s = some s := by
                unfold executeBotMove
                rw [if_neg hph, if_pos hph2]
                simp only [hfind]
                rw [if_neg hguard]
                simp only [hget, hrev, eq_self_iff_true, if_true]
              rw [hq] at h
              cases Option.some.inj h
              exact stepSound_self hInv
            · by_cases hval : tt.value = v
              · unfold executeBotMove at h
                rw [if_neg hph, if_pos hph2] at h
                simp only [hfind] at h
                rw [if_neg hguard] at h
                simp only [hget] at h
                rw [if_neg hrev, if_pos hval] at h
                set NP2 : List Player :=
                  if allRevealedAfter pid (revealPlayers pid ti s.players)
                  then elimPlayers pid (revealPlayers pid ti s.players)
                  else revealPlayers pid ti s.players with hNP2
                cases hdto : s.drawnTile with
                | none =>
                  simp only [hdto] at h
                  cases hnid : getNextPlayerId NP2 s.currentTurnPlayerId with
                  | none =>
                    simp only [hnid] at h
                    exact Option.noConfusion h
                  | some nid =>
                    simp only [hnid] at h
                    cases Option.some.inj h
                    exact stepSound_botCorrect ti hInv hfind htelim hself hNP2
                      (Or.inl ⟨hdto, rfl⟩) hnid rfl rfl rfl rfl rfl rfl
                | some dt =>
                  simp only [hdto] at h
                  cases hbi : NP2.findIdx? (fun p => p.id = s.currentTurnPlayerId) with
                  | none =>
                    simp only [hbi] at h
                    exact Option.noConfusion h
                  | some bi =>
                    simp only [hbi] at h
                    cases hbp : NP2.get? bi with
                    | none =>
                      simp only [hbp] at h
                      exact Option.noConfusion h
                    | some bp =>
                      simp only [hbp] at h
                      cases hnid : getNextPlayerId
                          (NP2.set bi { bp with hand := sortHand (bp.hand ++ [dt]) })
                          s.currentTurnPlayerId with
                      | none =>
                        simp only [hnid] at h
                        exact Option.noConfusion h
                      | some nid =>
                        simp only [hnid] at h
                        cases Option.some.inj h
                        exact stepSound_botCorrect ti hInv hfind htelim hself hNP2
                          (Or.inr ⟨dt, bi, bp, hdto, hbi, hbp, rfl⟩) hnid rfl rfl rfl rfl
                          rfl rfl
              · have hq : executeBotMove r pid ti v s = endTurn false s := by
                  unfold executeBotMove
                  rw [if_neg hph, if_pos hph2]
                  simp only [hfind]
                  rw [if_neg hguard]
                  simp only [hget]
                  rw [if_neg hrev, if_neg hval]
                rw [hq] at h
                exact stepSound_endTurn hInv h
    · by_cases hph3 : s.phase = GamePhase.RESOLVE
      · have hq : executeBotMove r pid ti v s = endTurn true s := by
          unfold executeBotMove
          rw [if_neg hph, if_neg hph2, if_pos hph3]
        rw [hq] at h
        exact stepSound_endTurn hInv h
      · have hq : executeBotMove r pid ti v s = some s := by
          unfold executeBotMove
          rw [if_neg hph, if_neg hph2, if_neg hph3]
        rw [hq] at h
        cases Option.some.inj h
        exact stepSound_self hInv

/-! ## The invariants hold on every reachable state -/

theorem init_inv {s : GameState} (h : Init s) : Inv s := by
  obtain ⟨hlen2, hlen4, hnd, hall, hhlen, hhand, hpools, htids, hhead, hdrawn, hph, hwin,
    hmove⟩ := h
  refine ⟨hnd, ?_, ?_, ?_, fun _ => hdrawn, fun t ht => (hpools t ht).2.1, ?_, htids⟩
  · intro p hp hallrev
    exfalso
    have hlen : p.hand.length = if s.players.length = 4 then 3 else 4 := hhlen p hp
    have hpos : 0 < p.hand.length := by
      rw [hlen]
      split <;> omega
    obtain ⟨t, ht⟩ := List.exists_mem_of_length_pos hpos
    have h1 := (hhand p hp t ht).1
    have h2 := hallrev t ht
    rw [h1] at h2
    exact Bool.noConfusion h2
  · cases hps : s.players with
    | nil =>
      rw [hps] at hlen2
      exact absurd hlen2 (by decide)
    | cons p0 rest =>
      have hid : p0.id = s.currentTurnPlayerId := by
        rw [hps] at hhead
        simpa using hhead
      refine ⟨p0, by rw [hps]; exact List.mem_cons_self _ _, hid, ?_⟩
      exact hall p0 (by rw [hps]; exact List.mem_cons_self _ _)
  · have hcnt : countActive s.players = s.players.length := by
      unfold countActive
      rw [List.filter_eq_self.2 (fun p hp => by simp [hall p hp])]
    unfold WinnerInv
    rw [hwin]
    constructor
    · intro hs
      exact (nomatch hs)
    · intro hc
      exfalso
      rw [hcnt] at hc
      omega
  · intro t ht hj
    have h0t : tilesOf s = (s.pool ++ []) ++ s.players.flatMap Player.hand := by
      unfold tilesOf
      rw [hdrawn]
      rfl
    rw [h0t] at ht
    rcases List.mem_append.1 ht with ht1 | ht2
    · exact (hpools t (by simpa using ht1)).2.2 hj
    · obtain ⟨p, hp, htp⟩ := List.mem_flatMap.1 ht2
      exact (hhand p hp t htp).2.2 hj

theorem step_sound {s s' : GameState} (hInv : Inv s) (hst : Step s s') :
    StepSound s s' := by
  cases hst with
  | draw r _ => exact stepSound_drawTile r hInv
  | guessCmd pid i v _ _ hg => exact stepSound_guess pid i v hInv hg
  | cont _ => exact stepSound_continueTurn hInv
  | endT b _ _ he => exact stepSound_endTurn hInv he
  | drop d t _ => exact stepSound_handleDrop d t hInv
  | bot r pid ti v _ _ hb => exact stepSound_bot r pid ti v hInv hb

theorem reachable_inv {s : GameState} (h : Reachable s) : Inv s := by
  obtain ⟨s0, h0, hr⟩ := h
  induction hr with
  | refl => exact init_inv h0
  | tail hab hbc ih => exact (step_sound ih hbc).1

/-- A rejected drop: when the resolved dragged object has already been
placed, `handleDrop` leaves the state unchanged. -/
theorem handleDrop_placed (d tgt : String) (s : GameState) (dobj : Tile)
    (hres : resolveDragged s d = some dobj) (hpl : dobj.isPlaced = true) :
    handleDrop d tgt s = s := by
  by_cases hdt : d = tgt
  · unfold handleDrop
    rw [if_pos hdt]
  · unfold resolveDragged at hres
    cases hfind : s.players.find? (fun p => p.id = s.currentTurnPlayerId) with
    | none =>
      rw [hfind] at hres
      exact Option.noConfusion hres
    | some cp =>
      simp only [hfind] at hres
      unfold handleDrop
      rw [if_neg hdt]
      simp only [hfind]
      simp only [hres]
      rw [if_pos (Or.inr hpl)]

/-- The sample game `wStart` is a legal deal, and the four-correct-guess
run ending in `wc8` is a legal command sequence: `wc8` is reachable. -/
theorem reachable_wc8 : Reachable wc8 := by
  refine ⟨wStart, by unfold Init; decide, ?_⟩
  have h1 : Step wStart wc1 := Step.draw 0 wStart
  have h2 : Step wc1 wc2 := Step.guessCmd "p-1" 0 0 wc1 wc2 (by decide)
  have h3 : Step wc2 wc3 := Step.cont wc2
  have h4 : Step wc3 wc4 := Step.guessCmd "p-1" 1 1 wc3 wc4 (by decide)
  have h5 : Step wc4 wc5 := Step.cont wc4
  have h6 : Step wc5 wc6 := Step.guessCmd "p-1" 2 2 wc5 wc6 (by decide)
  have h7 : Step wc6 wc7 := Step.cont wc6
  have h8 : Step wc7 wc8 := Step.guessCmd "p-1" 3 3 wc7 wc8 (by decide)
  exact Relation.ReflTransGen.head h1 (Relation.ReflTransGen.head h2
    (Relation.ReflTransGen.head h3 (Relation.ReflTransGen.head h4
      (Relation.ReflTransGen.head h5 (Relation.ReflTransGen.head h6
        (Relation.ReflTransGen.head h7 (Relation.ReflTransGen.single h8)))))))

/-- The joker deal `pStart` is legal and its accepted joker drop `pDrop` is
one engine command away: `pDrop` is reachable. -/
theorem reachable_pDrop : Reachable pDrop :=
  ⟨pStart, by unfold Init; decide,
    Relation.ReflTransGen.single (Step.drop "w-joker" "b-4" pStart)⟩

/-- C1: in every reachable game state, a player whose whole hand is revealed
carries the eliminated flag — equivalently, the operation that reveals the
last hidden tile of a hand (a correct guess; the end-of-turn force-reveal
can never complete a hand, as the acting player always retains a hidden
tile) sets the flag within that same operation. -/
theorem claim_C1 (s : GameState) (h : Reachable s) :
    ∀ p ∈ s.players, (∀ t ∈ p.hand, t.isRevealed = true) → p.isEliminated = true :=
  (reachable_inv h).2.1

theorem claim_C1_witness :
    (∀ t ∈ (wc8.players.getD 1 wBot).hand, t.isRevealed = true) ∧
    (wc8.players.getD 1 wBot).isEliminated = true :=
  ⟨by decide, claim_C1 wc8 reachable_wc8 (wc8.players.getD 1 wBot) (by decide) (by decide)⟩

/-- C5: in every reachable state the winner id is set exactly when one
non-eliminated player remains, and any engine command that drops the
non-eliminated count to one sets the winner and enters `GameOver` within
that same command. -/
theorem claim_C5 (s : GameState) (h : Reachable s) :
    (s.winnerId.isSome = true ↔ countActive s.players = 1) ∧
    (∀ s', Step s s' → countActive s'.players = 1 → countActive s.players ≠ 1 →
      s'.winnerId.isSome = true ∧ s'.phase = GamePhase.GAME_OVER) := by
  have hInv := reachable_inv h
  refine ⟨hInv.2.2.2.1, ?_⟩
  intro s' hst h1 hne
  obtain ⟨hInv', hdrop, _⟩ := step_sound hInv hst
  exact ⟨hInv'.2.2.2.1.2 h1, hdrop h1 hne⟩

theorem claim_C5_witness :
    ((wc8.winnerId.isSome = true ↔ countActive wc8.players = 1) ∧
    (∀ s', Step wc8 s' → countActive s'.players = 1 → countActive wc8.players ≠ 1 →
      s'.winnerId.isSome = true ∧ s'.phase = GamePhase.GAME_OVER)) :=
  claim_C5 wc8 reachable_wc8

/-- C7 (amended): in every reachable state a non-wildcard tile's sort key
equals the value it was created with, and a placed wildcard keeps its
identity, sort key and placed flag across every further engine command,
with any reposition command on a placed dragged tile rejected as a no-op.
An unplaced wildcard's sort key, however, can also change outside the
reposition command: a bot drawing a joker re-randomizes its sort key (see
the counterexample), so the "only through an explicit reposition command"
part of the claim fails. -/
theorem claim_C7_amended :
    (∀ s, Reachable s → ∀ t ∈ tilesOf s, t.isJoker = false →
      t.sortValue = (t.value : Rat)) ∧
    (∀ s s', Reachable s → Step s s' → PlacedPersist s s') ∧
    (∀ d tgt s dobj, resolveDragged s d = some dobj → dobj.isPlaced = true →
      handleDrop d tgt s = s) := by
  refine ⟨?_, ?_, ?_⟩
  · intro s h
    exact (reachable_inv h).2.2.2.2.2.2.1
  · intro s s' h hst
    exact (step_sound (reachable_inv h) hst).2.2
  · intro d tgt s dobj hres hpl
    exact handleDrop_placed d tgt s dobj hres hpl

theorem claim_C7_amended_witness :
    ((tileB "b-4" 4).sortValue = ((tileB "b-4" 4).value : Rat)) ∧
    (∃ t' ∈ tilesOf (handleDrop "w-joker" "b-5" pDrop),
      t'.id = (⟨"w-joker", TileColor.white, -1, 3, false, none, true, true⟩ : Tile).id ∧
      t'.sortValue
        = (⟨"w-joker", TileColor.white, -1, 3, false, none, true, true⟩ : Tile).sortValue ∧
      t'.isPlaced = true) ∧
    handleDrop "w-joker" "b-5" pDrop = pDrop :=
  ⟨claim_C7_amended.1 pDrop reachable_pDrop (tileB "b-4" 4) (by decide) (by decide),
   claim_C7_amended.2.1 pDrop (handleDrop "w-joker" "b-5" pDrop) reachable_pDrop
     (Step.drop "w-joker" "b-5" pDrop)
     ⟨"w-joker", TileColor.white, -1, 3, false, none, true, true⟩ (by decide) (by decide),
   claim_C7_amended.2.2 "w-joker" "b-5" pDrop
     ⟨"w-joker", TileColor.white, -1, 3, false, none, true, true⟩ (by decide) (by decide)⟩

/-- A reachable state (`jc2`: the human drew `w-5`, guessed wrong, and the
turn passed to the bot) holds the unplaced black joker at the draw end of
the pool with its factory sort key `100`; the bot's draw command then hands
it over with sort key `5` — changed without any reposition command and with
the placed flag still unset — refuting "a wildcard tile's sort key changes
only through an explicit reposition command". -/
theorem claim_C7_cex :
    Reachable jc2 ∧
    (∃ t ∈ tilesOf jc2, t.id = "b-joker" ∧ t.isJoker = true ∧ t.isPlaced = false ∧
      t.sortValue = 100) ∧
    (drawTile 5 jc2).drawnTile.map Tile.id = some "b-joker" ∧
    (drawTile 5 jc2).drawnTile.map Tile.sortValue = some 5 ∧
    (drawTile 5 jc2).drawnTile.map Tile.isPlaced = some false := by
  refine ⟨⟨jStart, by unfold Init; decide, ?_⟩, by decide, by decide, by decide, by decide⟩
  have h1 : Step jStart jc1 := Step.draw 0 jStart
  have h2 : Step jc1 jc2 := Step.guessCmd "p-1" 0 99 jc1 jc2 (by decide)
  exact Relation.ReflTransGen.head h1 (Relation.ReflTransGen.single h2)

/-! ## Witnesses: the hypotheses of the claim theorems are satisfiable -/

theorem claim_C9_witness :
    wStart.phase = GamePhase.DRAW ∧ wStart.pool = [] ∧ wStart.drawnTile = none ∧
    ((drawTile 0 wStart).phase = GamePhase.GUESS ∧ (drawTile 0 wStart).drawnTile = none ∧
    (drawTile 0 wStart).pool = wStart.pool ∧ (drawTile 0 wStart).players = wStart.players ∧
    (drawTile 0 wStart).currentTurnPlayerId = wStart.currentTurnPlayerId ∧
    (drawTile 0 wStart).winnerId = wStart.winnerId ∧
    (drawTile 0 wStart).moveNumber = wStart.moveNumber ∧
    (drawTile 0 wStart).turnLog
      = ("Pool empty. Proceed to guess." :: wStart.turnLog).take 50) :=
  ⟨rfl, rfl, rfl, claim_C9 0 wStart rfl rfl rfl⟩

theorem claim_C10_witness :
    [wAlice, wBot].findIdx? (fun p => p.id = "p-0") = some 0 ∧
    (((∃ p ∈ [wAlice, wBot], p.isEliminated = false) →
      (cyclicFirstActive [wAlice, wBot] ((0 + 1) % [wAlice, wBot].length)).isSome = true ∧
      getNextPlayerId [wAlice, wBot] "p-0"
        = (cyclicFirstActive [wAlice, wBot] ((0 + 1) % [wAlice, wBot].length)).bind
            (fun j => ([wAlice, wBot].get? j).map (fun p => p.id))) ∧
    ((∀ p ∈ [wAlice, wBot], p.isEliminated = true) →
      ∀ fuel, nextActiveIdx [wAlice, wBot] ((0 + 1) % [wAlice, wBot].length) fuel = none)) :=
  ⟨by decide, claim_C10 [wAlice, wBot] "p-0" 0 (by decide)⟩

theorem claim_C3_amended_witness :
    wc8.phase = GamePhase.GAME_OVER ∧
    (drawTile 0 wc8 = wc8 ∧ guess "p-1" 0 0 wc8 = some wc8 ∧ continueTurn wc8 = wc8 ∧
      executeBotMove 0 "p-1" 0 0 wc8 = some wc8) :=
  ⟨by decide, claim_C3_amended wc8 (by decide) 0 "p-1" 0 0 0 0⟩

theorem claim_C4_amended_witness :
    (wStart.phase ≠ GamePhase.GUESS → guess "p-1" 0 0 wStart = some wStart) ∧
    (wStart.phase = GamePhase.GUESS →
      (wStart.players.find? (fun p => p.id = "p-1") = none →
        guess "p-1" 0 0 wStart = some wStart) ∧
      ∀ tp, wStart.players.find? (fun p => p.id = "p-1") = some tp →
        (tp.isEliminated = true → guess "p-1" 0 0 wStart = some wStart) ∧
        (tp.id = wStart.currentTurnPlayerId → guess "p-1" 0 0 wStart = some wStart) ∧
        (∀ tt, getInt? tp.hand 0 = some tt → tt.isRevealed = true →
          guess "p-1" 0 0 wStart = some wStart) ∧
        (tp.isEliminated = false → tp.id ≠ wStart.currentTurnPlayerId →
          getInt? tp.hand 0 = none → guess "p-1" 0 0 wStart = none)) :=
  claim_C4_amended wStart "p-1" 0 0

theorem claim_C8_amended_witness :
    GoodKeys wHand0 ∧
    (List.Chain' (fun x y => x.sortValue ≤ y.sortValue) (sortHand wHand0) ∧
    (sortHand wHand0).Pairwise (fun x y =>
      |x.sortValue - y.sortValue| ≤ (1 : Rat)/1000 →
        ¬(x.color = TileColor.white ∧ y.color = TileColor.black))) :=
  ⟨by unfold GoodKeys; decide, claim_C8_amended wHand0 (by unfold GoodKeys; decide)⟩

theorem claim_C2_amended_witness :
    ∃ s', guess "p-1" ((0 : Nat) : Int) 0 wc1 = some s' ∧
      s'.currentTurnPlayerId = wc1.currentTurnPlayerId ∧
      s'.moveNumber = wc1.moveNumber ∧
      s'.drawnTile = wc1.drawnTile ∧
      s'.pool = wc1.pool ∧
      (s'.phase = GamePhase.RESOLVE ∨
        (s'.phase = GamePhase.GAME_OVER ∧ s'.winnerId.isSome = true)) ∧
      s'.players.length = wc1.players.length ∧
      (∀ k p, wc1.players.get? k = some p → p.id ≠ "p-1" → s'.players.get? k = some p) ∧
      (∀ k p, wc1.players.get? k = some p → p.id = "p-1" →
        ∃ q, s'.players.get? k = some q ∧ q.hand = revealAt p.hand 0 ∧ q.id = p.id ∧
          q.name = p.name ∧ q.isBot = p.isBot ∧ q.avatar = p.avatar) :=
  claim_C2_amended wc1 "p-1" 0 0 wBot (tileB "b-0" 0) (by decide) (by decide) (by decide)
    (by decide) (by decide) (by decide) (by decide)

theorem claim_C6_witness :
    jc1.drawnTile = some ⟨"w-5", TileColor.white, 5, 5, false, some "p-0", false, false⟩ ∧
    (∃ s' j np,
      endTurn false jc1 = some s' ∧
      s'.players = jc1.players.set 0
        { wAlice with hand := sortHand (wAlice.hand ++
            [⟨"w-5", TileColor.white, 5, 5, true, some "p-0", false, false⟩]) } ∧
      s'.phase = GamePhase.DRAW ∧ s'.drawnTile = none ∧ s'.pool = jc1.pool ∧
      s'.moveNumber = jc1.moveNumber + 1 ∧ s'.winnerId = jc1.winnerId ∧
      cyclicFirstActive s'.players ((0 + 1) % s'.players.length) = some j ∧
      s'.players.get? j = some np ∧ np.isEliminated = false ∧
      s'.currentTurnPlayerId = np.id) :=
  ⟨by decide, claim_C6 jc1 ⟨"w-5", TileColor.white, 5, 5, false, some "p-0", false, false⟩
    0 wAlice (by decide) (by decide) (by decide) (by decide)⟩

end DaVinci
